import Mathlib

/-!
# Image-segmentation tensor decoder (`tensordec-imagesegment.c`)

A shallow embedding of the decoder sub-plugin: the context `image_segments`, mode
selection (`is_init`, `_init_modes`, `is_setOption`), the per-pixel classifier
(`set_segment_map`), the renderer (`setColorAccourdingToLabel`), the per-frame
entry point `is_decode` and the capability description `is_getOutCaps`.

Modelling conventions.

* `guint` / `uint32_t` values are natural numbers; every index expression the C code
  evaluates in `unsigned int` is reduced `% 2 ^ 32`.
* `float` scores are rationals: every finite binary32 value is a rational number and the
  C comparison `>` on non-NaN values is the order of the values, so `.5f` is `1 / 2`.
* A C array is a list; an access outside the array (or through `NULL`) is undefined
  behaviour and makes the embedded function return `none`, as does a failed `g_assert`.
* The output memory is a list of 32-bit words (the code writes it through a
  `uint32_t *`); its size in bytes is four times its length.
* A counting loop `for (i = 0; i < n; i++)` whose body may fail is a monadic fold over
  `List.range n`; the `int` counters are natural numbers.
* `find_key_strv`, which `is_setOption` calls, is defined outside this file: `is_setOption`
  takes the lookup as a parameter, and the concrete inputs use a lookup modelled from the
  spec.
-/

namespace ImageSegment

/-! ## Constants and the context -/

/-- The macro `TOTAL_LABELS`. -/
def TOTAL_LABELS : Nat := 21

/-- The macro `TFLITE_IMAGE_SIZE`. -/
def TFLITE_IMAGE_SIZE : Nat := 257

/-- The macro `DETECTION_THRESHOLD`, the binary32 constant `.5f`. -/
def DETECTION_THRESHOLD : ℚ := 1 / 2

/-- Enumerator `TFLITE_IMAGE_SEGMENT = 0` of `image_segment_modes`. -/
def TFLITE_IMAGE_SEGMENT : Int := 0

/-- Enumerator `UNKNOWN_IMAGE_SEGMENT` of `image_segment_modes`, the one after `0`. -/
def UNKNOWN_IMAGE_SEGMENT : Int := 1

/-- The table `is_modes` without its terminating `NULL`. -/
def is_modes : List String := ["tflite"]

/-- The struct `image_segments`. The field `mode` holds whatever integer the mode lookup
returned; `segment_map` is `none` for the `NULL` pointer and otherwise the rows. -/
structure image_segments where
  mode : Int
  width : Nat
  height : Nat
  segment_map : Option (List (List Nat))
deriving DecidableEq, Repr

/-- Modelled from the spec: `find_key_strv` is declared in `nnstreamer_plugin_api.h` and
defined in another file of the repository. The spec says the mode name is resolved against
the recognised mode set and that a name which is not found yields the `Unknown` sentinel;
a null name is not a member of the set. -/
def find_key_strv (strv : List String) (key : Option String) : Int :=
  match key with
  | none => UNKNOWN_IMAGE_SEGMENT
  | some k => if k ∈ strv then (strv.indexOf k : Int) else UNKNOWN_IMAGE_SEGMENT

/-! ## Mode selection -/

/-- The function `_init_modes`: in tflite mode set both dimensions to 257 and allocate
257 zero-filled rows of 257 cells (`g_new0`); the return value is `TRUE` either way. -/
def _init_modes (idata : image_segments) : image_segments × Bool :=
  if idata.mode = TFLITE_IMAGE_SEGMENT then
    ({ mode := idata.mode
       width := TFLITE_IMAGE_SIZE
       height := TFLITE_IMAGE_SIZE
       segment_map :=
         some (List.replicate TFLITE_IMAGE_SIZE (List.replicate TFLITE_IMAGE_SIZE 0)) },
      true)
  else (idata, true)

/-- The function `is_init`: a zeroed context with the mode set to
`UNKNOWN_IMAGE_SEGMENT`; the return value is `TRUE`. -/
def is_init : image_segments × Bool :=
  ({ mode := UNKNOWN_IMAGE_SEGMENT, width := 0, height := 0, segment_map := none }, true)

/-- The function `is_setOption`. The lookup `find_key_strv` lives outside this file and is
the parameter `find_key`. The mode is assigned from the lookup first, the null / empty
test comes second, and `_init_modes` runs when the new mode differs from the previous one
and from `UNKNOWN_IMAGE_SEGMENT`. -/
def is_setOption (find_key : List String → Option String → Int)
    (idata : image_segments) (opNum : Int) (param : Option String) :
    image_segments × Bool :=
  if opNum = 0 then
    let previous := idata.mode
    let idata1 : image_segments := { idata with mode := find_key is_modes param }
    if param = none ∨ param = some "" then (idata1, false)
    else if idata1.mode ≠ previous ∧ idata1.mode ≠ UNKNOWN_IMAGE_SEGMENT then
      _init_modes idata1
    else (idata1, true)
  else (idata, true)

/-! ## Classification -/

/-- The index expression `i * idata->width * TOTAL_LABELS + j * TOTAL_LABELS + idx`,
evaluated in `unsigned int`. -/
def prob_index (width i j idx : Nat) : Nat :=
  (i * width * TOTAL_LABELS + j * TOTAL_LABELS + idx) % 2 ^ 32

/-- The same index expression with every `unsigned int` operation reduced on its own:
`i * width`, then `* TOTAL_LABELS`, then `+ j * TOTAL_LABELS`, then `+ idx`. -/
def prob_index_wrapping (width i j idx : Nat) : Nat :=
  ((((i * width) % 2 ^ 32 * TOTAL_LABELS) % 2 ^ 32 + (j * TOTAL_LABELS) % 2 ^ 32) % 2 ^ 32
    + idx) % 2 ^ 32

/-- One iteration of the loop over `idx`: read the score, and replace the running
maximum only when the score is strictly greater. -/
def max_step (read : Nat → Option ℚ) (st : Nat × ℚ) (idx : Nat) : Option (Nat × ℚ) :=
  match read idx with
  | none => none
  | some prob => if prob > st.2 then some (idx, prob) else some st

/-- The scan of one pixel: `max_idx = 0`, `max_prob` the score of label 0, then
`for (idx = 1; idx < TOTAL_LABELS; idx++)`. The result is `(max_idx, max_prob)`. -/
def max_scan (read : Nat → Option ℚ) : Option (Nat × ℚ) :=
  match read 0 with
  | none => none
  | some p0 => (List.range' 1 (TOTAL_LABELS - 1)).foldlM (max_step read) (0, p0)

/-- The scores the code reads for pixel `(i, j)`: `prob_map[prob_index width i j idx]`. -/
def pixel_read (prob_map : List ℚ) (width i j : Nat) (idx : Nat) : Option ℚ :=
  prob_map[prob_index width i j idx]?

/-- The call `memset (row, 0, width * sizeof (guint))` on one row. -/
def memset_row (row : List Nat) (width : Nat) : Option (List Nat) :=
  if width ≤ row.length then some (List.replicate width 0 ++ row.drop width) else none

/-- The first loop of `set_segment_map`, one row: `memset (segment_map[i], 0, ...)`. -/
def clear_row (width : Nat) (m : List (List Nat)) (i : Nat) : Option (List (List Nat)) :=
  match m[i]? with
  | none => none
  | some row =>
    match memset_row row width with
    | none => none
    | some row1 => some (m.set i row1)

/-- The store `segment_map[i][j] = v`. -/
def write_cell (m : List (List Nat)) (i j v : Nat) : Option (List (List Nat)) :=
  match m[i]? with
  | none => none
  | some row => if j < row.length then some (m.set i (row.set j v)) else none

/-- The body of the loop over `j` in `set_segment_map`: scan the pixel and store
`max_idx` when `max_prob > DETECTION_THRESHOLD`. -/
def classify_cell (prob_map : List ℚ) (width i : Nat) (m : List (List Nat)) (j : Nat) :
    Option (List (List Nat)) :=
  match max_scan (pixel_read prob_map width i j) with
  | none => none
  | some (max_idx, max_prob) =>
    if max_prob > DETECTION_THRESHOLD then write_cell m i j max_idx else some m

/-- The body of the loop over `i` in the second loop nest of `set_segment_map`. -/
def classify_row (prob_map : List ℚ) (width : Nat) (m : List (List Nat)) (i : Nat) :
    Option (List (List Nat)) :=
  (List.range width).foldlM (classify_cell prob_map width i) m

/-- The function `set_segment_map`: clear every row, then classify every pixel. With
`height = 0` neither loop touches `segment_map`, so a `NULL` map is left as it is. -/
def set_segment_map (idata : image_segments) (prob_map : List ℚ) : Option image_segments :=
  match idata.segment_map with
  | none => if idata.height = 0 then some idata else none
  | some m =>
    match (List.range idata.height).foldlM (clear_row idata.width) m with
    | none => none
    | some m1 =>
      match (List.range idata.height).foldlM (classify_row prob_map idata.width) m1 with
      | none => none
      | some m2 => some { idata with segment_map := some m2 }

/-! ## Rendering -/

/-- The table `labelColor` of `setColorAccourdingToLabel`. -/
def labelColor : List Nat :=
  [0xFF000080, 0xFF800000, 0xFFFFEFD5, 0xFF40E0D0, 0xFFFFA500,
   0xFF00FF00, 0xFFDC143C, 0xFFF0F8FF, 0xFF008000, 0xFFEE82EE,
   0xFF808080, 0xFF4169E1, 0xFF008080, 0xFFFF6347, 0xFF000000,
   0xFFFF4500, 0xFFDA70D6, 0xFFEEE8AA, 0xFF98FB98, 0xFFAFEEEE,
   0xFFFFF5EE]

/-- The index expression `i * idata->width + j`, evaluated in `unsigned int`. -/
def frame_index (width i j : Nat) : Nat := (i * width + j) % 2 ^ 32

/-- The body of the inner loop of `setColorAccourdingToLabel`:
`frame[i * width + j] = labelColor[segment_map[i][j]]`. -/
def color_cell (m : List (List Nat)) (width i : Nat) (frame : List Nat) (j : Nat) :
    Option (List Nat) :=
  match m[i]? with
  | none => none
  | some row =>
    match row[j]? with
    | none => none
    | some label_idx =>
      match labelColor[label_idx]? with
      | none => none
      | some c =>
        if frame_index width i j < frame.length then
          some (frame.set (frame_index width i j) c)
        else none

/-- The body of the outer loop of `setColorAccourdingToLabel`. -/
def color_row (m : List (List Nat)) (width : Nat) (frame : List Nat) (i : Nat) :
    Option (List Nat) :=
  (List.range width).foldlM (color_cell m width i) frame

/-- The function `setColorAccourdingToLabel` on the mapped output words `frame`. With a
`NULL` map the first cell access is undefined; with no cell to visit nothing is read. -/
def setColorAccourdingToLabel (idata : image_segments) (frame : List Nat) :
    Option (List Nat) :=
  match idata.segment_map with
  | none => if idata.height = 0 ∨ idata.width = 0 then some frame else none
  | some m => (List.range idata.height).foldlM (color_row m idata.width) frame

/-! ## Per-frame decoding -/

/-- Modelled from the spec: the element-type enumeration of `tensor_typedef.h` is in
another file of the repository. The spec only distinguishes the 32-bit float element type
from every other one. -/
inductive tensor_type
  | _NNS_FLOAT32
  | other (code : Nat)
deriving DecidableEq, Repr

/-- The fields of `GstTensorsConfig` this file reads: `info.num_tensors`,
`info.info[0].type`, `info.info[0].dimension[0]`, `rate_n` and `rate_d`. -/
structure GstTensorsConfig where
  num_tensors : Nat
  type : tensor_type
  dimension0 : Nat
  rate_n : Int
  rate_d : Int
deriving DecidableEq, Repr

/-- The value of `GstFlowReturn` this file returns. -/
inductive GstFlowReturn
  | GST_FLOW_OK
deriving DecidableEq, Repr

/-- GStreamer's `gst_buffer_get_size`: the size in bytes of a buffer of 32-bit words. -/
def gst_buffer_get_size (outbuf : List Nat) : Nat := 4 * outbuf.length

/-- GStreamer's `gst_allocator_alloc (NULL, size, NULL)`: fresh memory of `size` bytes.
Its contents are unspecified; `is_decode` clears all of it before any other use. -/
def gst_allocator_alloc (size : Nat) : List Nat := List.replicate (size / 4) 0

/-- GStreamer's `gst_buffer_set_size`, as `is_decode` uses it to enlarge a buffer that is
too small: the buffer then has `size` bytes, the old words first. -/
def gst_buffer_set_size (outbuf : List Nat) (size : Nat) : List Nat :=
  outbuf.take (size / 4) ++ List.replicate (size / 4 - outbuf.length) 0

/-- The call `memset (out_info.data, 0, size)` on mapped memory of at least `size` bytes. -/
def memset_words (data : List Nat) (size : Nat) : List Nat :=
  List.replicate (size / 4) 0 ++ data.drop (size / 4)

/-- The function `is_decode`. `size` is `idata->width * idata->height * 4` evaluated in
`unsigned int`. The output handle is present and mapping succeeds; the two `g_assert`s on
the tensor configuration abort (`none`) in tflite mode. The result is the context, the
words of the output buffer after the call and the return value. -/
def is_decode (idata : image_segments) (config : GstTensorsConfig) (input : List ℚ)
    (outbuf : List Nat) : Option (image_segments × List Nat × GstFlowReturn) :=
  let size := (idata.width * idata.height * 4) % 2 ^ 32
  let out_mem :=
    if gst_buffer_get_size outbuf = 0 then gst_allocator_alloc size
    else if gst_buffer_get_size outbuf < size then gst_buffer_set_size outbuf size
    else outbuf
  let data := memset_words out_mem size
  let classified : Option image_segments :=
    if idata.mode = TFLITE_IMAGE_SEGMENT then
      if config.type = tensor_type._NNS_FLOAT32 ∧ config.dimension0 = TOTAL_LABELS then
        set_segment_map idata input
      else none
    else some idata
  match classified with
  | none => none
  | some idata1 =>
    match setColorAccourdingToLabel idata1 data with
    | none => none
    | some frame => some (idata1, frame, GstFlowReturn.GST_FLOW_OK)

/-! ## Capability description -/

/-- The caps `is_getOutCaps` builds: the media type and the fields of the string handed
to `gst_caps_from_string`, and the `framerate` fraction set by `gst_caps_set_simple`. -/
structure GstCaps where
  media_type : String
  format : String
  width : Nat
  height : Nat
  framerate : Option (Int × Int)
deriving DecidableEq, Repr

/-- The function `is_getOutCaps`. A `NULL` configuration and a configuration with no
tensor make the two `g_return_val_if_fail` return `NULL` (`none`). Otherwise the caps are
`video/x-raw, format = RGBA` with the width and height of the context, and the framerate
`rate_n / rate_d` is attached when `rate_n >= 0 && rate_d > 0`. -/
def is_getOutCaps (idata : image_segments) (config : Option GstTensorsConfig) :
    Option GstCaps :=
  match config with
  | none => none
  | some cfg =>
    if cfg.num_tensors ≥ 1 then
      let caps : GstCaps :=
        { media_type := "video/x-raw", format := "RGBA", width := idata.width,
          height := idata.height, framerate := none }
      let fn := cfg.rate_n
      let fd := cfg.rate_d
      if fn ≥ 0 ∧ fd > 0 then some { caps with framerate := some (fn, fd) }
      else some caps
    else none

/-! ## Call sequences -/

/-- One call of the host pipeline on a context. -/
inductive Call
  | setOption (opNum : Int) (param : Option String)
  | decode (config : GstTensorsConfig) (input : List ℚ) (outbuf : List Nat)

/-- The context after one call; `none` when the call aborts. -/
def step (find_key : List String → Option String → Int) (idata : image_segments) :
    Call → Option image_segments
  | Call.setOption opNum param => some (is_setOption find_key idata opNum param).1
  | Call.decode config input outbuf =>
    match is_decode idata config input outbuf with
    | none => none
    | some r => some r.1

/-- The context after a sequence of calls on the context `idata`. -/
def runFrom (find_key : List String → Option String → Int) (idata : image_segments)
    (calls : List Call) : Option image_segments :=
  calls.foldlM (step find_key) idata

/-- A context is reachable when some sequence of calls produces it from `is_init`. -/
def Reachable (find_key : List String → Option String → Int) (idata : image_segments) :
    Prop :=
  ∃ calls : List Call, runFrom find_key is_init.1 calls = some idata

/-! ## Predicates used in the statements -/

/-- The label buffer `m` has `height` rows of `width` cells. -/
def HasDims (m : List (List Nat)) (height width : Nat) : Prop :=
  m.length = height ∧ ∀ row ∈ m, row.length = width

/-- The cell `segment_map[i][j]`, when it exists. -/
def cell (m : List (List Nat)) (i j : Nat) : Option Nat :=
  match m[i]? with
  | none => none
  | some row => row[j]?

/-- Label `k` with score `p` is the lowest-index maximum of the 21 scores `score`. -/
def LowestMax (score : Nat → ℚ) (k : Nat) (p : ℚ) : Prop :=
  k < TOTAL_LABELS ∧ score k = p ∧ (∀ idx, idx < TOTAL_LABELS → score idx ≤ p) ∧
    ∀ idx, idx < k → score idx < p

/-- The label `set_segment_map` leaves in cell `(i, j)`: `max_idx` of the scan when
`max_prob > DETECTION_THRESHOLD`, and the cleared value `0` otherwise. -/
def pixel_label (prob_map : List ℚ) (width i j : Nat) : Nat :=
  match max_scan (pixel_read prob_map width i j) with
  | none => 0
  | some (max_idx, max_prob) => if max_prob > DETECTION_THRESHOLD then max_idx else 0

/-- The colour the renderer looks up for cell `(i, j)`: `labelColor[segment_map[i][j]]`. -/
def pixel_color (m : List (List Nat)) (i j : Nat) : Option Nat :=
  match cell m i j with
  | none => none
  | some label_idx => labelColor[label_idx]?

/-- Every cell of an `height` by `width` buffer holds a label below `TOTAL_LABELS`. -/
def CellsValid (m : List (List Nat)) (height width : Nat) : Prop :=
  ∀ i j, i < height → j < width → ∃ l, cell m i j = some l ∧ l < TOTAL_LABELS

/-- The shape of a context the plugin builds: either nothing is allocated and both
dimensions are zero, or the buffer is 257 by 257 with a label below `TOTAL_LABELS` in
every cell. -/
def WellFormed (idata : image_segments) : Prop :=
  (idata.width = 0 ∧ idata.height = 0 ∧ idata.segment_map = none) ∨
  (idata.width = TFLITE_IMAGE_SIZE ∧ idata.height = TFLITE_IMAGE_SIZE ∧
    ∃ m, idata.segment_map = some m ∧ HasDims m TFLITE_IMAGE_SIZE TFLITE_IMAGE_SIZE ∧
      CellsValid m TFLITE_IMAGE_SIZE TFLITE_IMAGE_SIZE)

/-- The frame transformer `T` only stores colours into the frame: there is a map `W` from
positions to the colour last stored there such that every result of `T` is the input
with the colours of `W` stored, and whether `T` returns depends on the length of the
frame only. -/
def Overwrites (T : List Nat → Option (List Nat)) : Prop :=
  ∃ W : Nat → Option Nat,
    (∀ f f', T f = some f' → f'.length = f.length ∧
      ∀ q, f'[q]? = match W q with
        | some c => if q < f.length then some c else none
        | none => f[q]?) ∧
    ∀ f g f', T f = some f' → g.length = f.length → ∃ g', T g = some g'

/-! ## Concrete inputs -/

/-- A context of two rows by two columns whose buffer holds stale labels. -/
def small_context : image_segments :=
  { mode := TFLITE_IMAGE_SEGMENT, width := 2, height := 2,
    segment_map := some [[7, 7], [7, 7]] }

/-- A tensor for `small_context`: pixel `(0, 0)` has score 9/10 for label 5, pixel
`(0, 1)` has score exactly 1/2 for label 3, pixel `(1, 0)` has score 7/10 for labels 7
and 20, and every other score is zero. -/
def small_tensor : List ℚ :=
  (List.range (2 * 2 * 21)).map (fun n =>
    if n = 5 then 9 / 10 else if n = 21 + 3 then 1 / 2
    else if n = 42 + 7 then 7 / 10 else if n = 42 + 20 then 7 / 10 else 0)

/-- A context of 65537 rows by 65536 columns, every label zero: `width * height`
exceeds `2 ^ 32`. -/
def wide_context : image_segments :=
  { mode := UNKNOWN_IMAGE_SEGMENT, width := 65536, height := 65537,
    segment_map := some (List.replicate 65537 (List.replicate 65536 0)) }

/-- An all-zero output buffer of `65537 * 65536` words. -/
def wide_frame : List Nat := List.replicate (65537 * 65536) 0

/-- The context after `is_init` and the selection of `"tflite"`. -/
def tflite_context : image_segments :=
  (is_setOption find_key_strv is_init.1 0 (some "tflite")).1

/-- The binary32 value nearest to `0.9`. -/
def score_0_9 : ℚ := 15099494 / 16777216

/-- A tensor of `257 * 257 * 21` scores, all zero except label 5 of pixel `(0, 0)`. -/
def scenario_tensor : List ℚ :=
  (List.range (257 * 257 * 21)).map (fun n => if n = 5 then score_0_9 else 0)

/-- A configuration of one float32 tensor with 21 labels at 30/1 frames per second. -/
def scenario_config : GstTensorsConfig :=
  { num_tensors := 1, type := tensor_type._NNS_FLOAT32, dimension0 := 21,
    rate_n := 30, rate_d := 1 }

/-- A vector of 21 scores with a tie between labels 2 and 3 for the maximum. -/
def tie_scores : List ℚ :=
  [0, 3 / 10, 9 / 10, 9 / 10, 0, 0, 0, 0, 0, 0, 0, 0, 0, 0, 0, 0, 0, 0, 0, 0, 1 / 10]

/-- A sequence of calls none of which selects tflite with option index 0: an unknown
name, a decode, a null name, and `"tflite"` under an option index that is ignored. -/
def unset_calls : List Call :=
  [Call.setOption 0 (some "foo"), Call.decode scenario_config [] [],
   Call.setOption 0 none, Call.setOption 3 (some "tflite")]

/-- The calls that select `"tflite"` and then the unknown name `"foo"`. -/
def tflite_then_foo : List Call :=
  [Call.setOption 0 (some "tflite"), Call.setOption 0 (some "foo")]

/-- A configuration that reports no tensor. -/
def empty_config : GstTensorsConfig :=
  { num_tensors := 0, type := tensor_type._NNS_FLOAT32, dimension0 := 21,
    rate_n := 30, rate_d := 1 }

/-- The calls that select `"tflite"` and decode the scenario tensor into an empty output
buffer. -/
def scenario_calls : List Call :=
  [Call.setOption 0 (some "tflite"), Call.decode scenario_config scenario_tensor []]

/-- The single call that selects `"tflite"`. -/
def select_calls : List Call := [Call.setOption 0 (some "tflite")]

/-- A two-by-two context with the dimensions of `small_context` and other stale
labels. -/
def other_context : image_segments :=
  { mode := TFLITE_IMAGE_SEGMENT, width := 2, height := 2,
    segment_map := some [[1, 2], [3, 4]] }

/-- The context after selecting `"tflite"` and then the unknown name `"foo"`: the mode is
the unknown one, the 257 by 257 buffer is still there. -/
def foo_context : image_segments :=
  { tflite_context with mode := UNKNOWN_IMAGE_SEGMENT }

/-- An output buffer one word longer than a 257 by 257 frame. -/
def long_outbuf : List Nat := List.replicate (257 * 257 + 1) 7

/-- An output buffer of `65537 * 65536` words, every word one. -/
def wide_frame_ones : List Nat := List.replicate (65537 * 65536) 1

/-- The all-zero label buffer of the given dimensions with cell `(0, 0)` set to label 1. -/
def marked_map (height width : Nat) : List (List Nat) :=
  (List.replicate height (List.replicate width 0)).set 0 ((List.replicate width 0).set 0 1)

/-- The context `wide_context` with cell `(0, 0)` set to label 1. -/
def wide_context_marked : image_segments :=
  { mode := UNKNOWN_IMAGE_SEGMENT, width := 65536, height := 65537,
    segment_map := some (marked_map 65537 65536) }

/-- A context of 3122 rows by 65536 columns, every label zero:
`height * width * TOTAL_LABELS` exceeds `2 ^ 32`. -/
def deep_context : image_segments :=
  { mode := TFLITE_IMAGE_SEGMENT, width := 65536, height := 3122,
    segment_map := some (List.replicate 3122 (List.replicate 65536 0)) }

/-- A tensor for `deep_context`, all zero except score 0.9 for label 5 of pixel
`(3121, 0)`, whose row-major index is `(3121 * 65536 + 0) * 21 + 5 = 4295294981`. -/
def deep_tensor : List ℚ :=
  (List.range (3122 * 65536 * 21)).map (fun n => if n = 4295294981 then score_0_9 else 0)

/-! ## Loops -/

/-- Loop invariant rule for a counting loop whose body may fail: an invariant that holds
on entry and is carried by every iteration holds on exit, and the loop returns. -/
theorem foldlM_range'_inv {σ : Type} (f : σ → Nat → Option σ) (Inv : Nat → σ → Prop)
    (n : Nat) : ∀ (s : Nat) (s0 : σ), Inv s s0 →
    (∀ k st, s ≤ k → k < s + n → Inv k st → ∃ st', f st k = some st' ∧ Inv (k + 1) st') →
    ∃ st', (List.range' s n).foldlM f s0 = some st' ∧ Inv (s + n) st' := by
  induction n with
  | zero =>
    intro s s0 h0 _
    exact ⟨s0, rfl, by simpa using h0⟩
  | succ n ih =>
    intro s s0 h0 hstep
    obtain ⟨s1, hs1, hinv1⟩ := hstep s s0 (Nat.le_refl s) (by omega) h0
    have hrest := ih (s + 1) s1 hinv1 (fun k st hk1 hk2 hinv =>
      hstep k st (by omega) (by omega) hinv)
    obtain ⟨st', hst', hinv'⟩ := hrest
    refine ⟨st', ?_, ?_⟩
    · rw [List.range'_succ, List.foldlM_cons, hs1]
      exact hst'
    · have : s + (n + 1) = s + 1 + n := by omega
      rw [this]
      exact hinv'

/-- The same rule for a loop that counts from zero. -/
theorem foldlM_range_inv {σ : Type} (f : σ → Nat → Option σ) (Inv : Nat → σ → Prop)
    (n : Nat) (s0 : σ) (h0 : Inv 0 s0)
    (hstep : ∀ k st, k < n → Inv k st → ∃ st', f st k = some st' ∧ Inv (k + 1) st') :
    ∃ st', (List.range n).foldlM f s0 = some st' ∧ Inv n st' := by
  have h := foldlM_range'_inv f Inv n 0 s0 h0 (fun k st _ hk hinv =>
    hstep k st (by omega) hinv)
  rw [List.range_eq_range']
  simpa using h

/-- A property kept by every successful iteration holds of whatever a loop returns. -/
theorem foldlM_preserves {σ α : Type} (f : σ → α → Option σ) (P : σ → Prop)
    (hstep : ∀ a st st', P st → f st a = some st' → P st') :
    ∀ (l : List α) (s0 st' : σ), P s0 → l.foldlM f s0 = some st' → P st' := by
  intro l
  induction l with
  | nil =>
    intro s0 st' h0 h
    simp at h
    rw [← h]
    exact h0
  | cons a l ih =>
    intro s0 st' h0 h
    rw [List.foldlM_cons] at h
    cases hf : f s0 a with
    | none => rw [hf] at h; simp at h
    | some s1 =>
      rw [hf] at h
      exact ih s1 st' (hstep a s0 s1 h0 hf) h

/-! ## The scan of one pixel -/

/-- The scan over readable scores returns the lowest-index maximum. -/
theorem max_scan_spec (read : Nat → Option ℚ) (score : Nat → ℚ)
    (hread : ∀ idx, idx < TOTAL_LABELS → read idx = some (score idx)) :
    ∃ k p, max_scan read = some (k, p) ∧ LowestMax score k p := by
  have h0 : read 0 = some (score 0) := hread 0 (by decide)
  have hloop := foldlM_range'_inv (max_step read)
    (fun n st => st.1 < n ∧ score st.1 = st.2 ∧ (∀ idx, idx < n → score idx ≤ st.2) ∧
      ∀ idx, idx < st.1 → score idx < st.2)
    (TOTAL_LABELS - 1) 1 (0, score 0)
    ⟨Nat.zero_lt_one, rfl, by
      intro idx hidx
      have : idx = 0 := by omega
      subst this
      exact le_refl _, by
      intro idx hidx
      exact absurd hidx (Nat.not_lt_zero idx)⟩
    (by
      rintro k ⟨mi, mp⟩ hk1 hk2 ⟨hlt, hsc, hmax, hlow⟩
      have hk : k < TOTAL_LABELS := by
        have : TOTAL_LABELS = 21 := rfl
        omega
      simp only at hlt hsc hmax hlow
      by_cases hgt : score k > mp
      · refine ⟨(k, score k), ?_, ?_⟩
        · simp [max_step, hread k hk, hgt]
        · refine ⟨Nat.lt_succ_self k, rfl, ?_, ?_⟩
          · intro idx hidx
            rcases Nat.lt_succ_iff_lt_or_eq.mp hidx with h | h
            · exact le_trans (hmax idx h) (le_of_lt hgt)
            · rw [h]
          · intro idx hidx
            exact lt_of_le_of_lt (hmax idx hidx) hgt
      · refine ⟨(mi, mp), ?_, ?_⟩
        · simp [max_step, hread k hk, hgt]
        · refine ⟨Nat.lt_succ_of_lt hlt, hsc, ?_, hlow⟩
          intro idx hidx
          rcases Nat.lt_succ_iff_lt_or_eq.mp hidx with h | h
          · exact hmax idx h
          · rw [h]
            exact not_lt.mp hgt)
  obtain ⟨⟨k, p⟩, hres, hlt, hsc, hmax, hlow⟩ := hloop
  refine ⟨k, p, ?_, ?_⟩
  · simp only [max_scan, h0]
    exact hres
  · exact ⟨by simpa [TOTAL_LABELS] using hlt, hsc, by simpa [TOTAL_LABELS] using hmax, hlow⟩

/-- The lowest-index maximum of a score vector is unique. -/
theorem LowestMax_unique (score : Nat → ℚ) (k k' : Nat) (p p' : ℚ)
    (h : LowestMax score k p) (h' : LowestMax score k' p') : k = k' ∧ p = p' := by
  obtain ⟨hk, hs, hmax, hlow⟩ := h
  obtain ⟨hk', hs', hmax', hlow'⟩ := h'
  have hpp : p = p' := by
    apply le_antisymm
    · rw [← hs]; exact hmax' k hk
    · rw [← hs']; exact hmax k' hk'
  refine ⟨?_, hpp⟩
  rcases Nat.lt_trichotomy k k' with hlt | heq | hgt
  · have := hlow' k hlt
    rw [hs, hpp] at this
    exact absurd this (lt_irrefl _)
  · exact heq
  · have := hlow k' hgt
    rw [hs', hpp] at this
    exact absurd this (lt_irrefl _)

/-- Claim C1: for every vector of 21 scores, the pair `(max_idx, max_prob)` that the scan
of `set_segment_map` ends with is the lowest index attaining the maximum score: its score
is at least every score of the vector and every lower index has a strictly smaller
score. -/
theorem max_scan_lowest_index_of_maximum (v : List ℚ) (hv : v.length = TOTAL_LABELS) :
    ∃ k p, max_scan (fun idx => v[idx]?) = some (k, p) ∧ k < TOTAL_LABELS ∧
      v[k]? = some p ∧ (∀ (idx : Nat) (q : ℚ), v[idx]? = some q → q ≤ p) ∧
      ∀ (idx : Nat) (q : ℚ), idx < k → v[idx]? = some q → q < p := by
  have hread : ∀ idx, idx < TOTAL_LABELS → (fun idx => v[idx]?) idx = some (v.getD idx 0) := by
    intro idx hidx
    have hlt : idx < v.length := by rw [hv]; exact hidx
    simp [List.getD, List.getElem?_eq_getElem hlt]
  obtain ⟨k, p, hres, hk, hs, hmax, hlow⟩ := max_scan_spec _ (fun idx => v.getD idx 0) hread
  refine ⟨k, p, hres, hk, ?_, ?_, ?_⟩
  · have := hread k hk
    simp only at this hs
    rw [this, hs]
  · intro idx q hq
    have hidx : idx < TOTAL_LABELS := by
      rw [← hv]
      exact (List.getElem?_eq_some_iff.mp hq).1
    have := hread idx hidx
    simp only at this
    rw [this] at hq
    have hq' : v.getD idx 0 = q := Option.some.inj hq
    rw [← hq']
    exact hmax idx hidx
  · intro idx q hidx hq
    have := hread idx (lt_trans hidx hk)
    simp only at this
    rw [this] at hq
    have hq' : v.getD idx 0 = q := Option.some.inj hq
    rw [← hq']
    exact hlow idx hidx

/-- Witness for C1 on a vector with a tie: the hypothesis holds and the scan returns the
lowest of the tied labels. -/
theorem max_scan_lowest_index_of_maximum_witness :
    tie_scores.length = TOTAL_LABELS ∧
    ∃ k p, max_scan (fun idx => tie_scores[idx]?) = some (k, p) ∧ k < TOTAL_LABELS ∧
      tie_scores[k]? = some p ∧ (∀ (idx : Nat) (q : ℚ), tie_scores[idx]? = some q → q ≤ p) ∧
      ∀ (idx : Nat) (q : ℚ), idx < k → tie_scores[idx]? = some q → q < p :=
  ⟨rfl, max_scan_lowest_index_of_maximum tie_scores rfl⟩

/-! ## The label buffer -/

/-- A row of a buffer with the given dimensions has the given width. -/
theorem HasDims.row_length {m : List (List Nat)} {h w i : Nat} (hd : HasDims m h w)
    (hi : i < h) : ∃ row, m[i]? = some row ∧ row.length = w := by
  have hlt : i < m.length := by rw [hd.1]; exact hi
  exact ⟨m[i], List.getElem?_eq_getElem hlt, hd.2 _ (List.getElem_mem hlt)⟩

/-- Replacing a row by one of the same width keeps the dimensions. -/
theorem HasDims.set {m : List (List Nat)} {h w i : Nat} {row : List Nat}
    (hd : HasDims m h w) (hrow : row.length = w) : HasDims (m.set i row) h w := by
  refine ⟨by rw [List.length_set]; exact hd.1, ?_⟩
  intro r hr
  rcases List.mem_or_eq_of_mem_set hr with h1 | h1
  · exact hd.2 r h1
  · rw [h1]; exact hrow

/-- The cells of a buffer in which row `i` has been replaced. -/
theorem cell_set (m : List (List Nat)) (i : Nat) (row : List Nat) (hi : i < m.length)
    (a b : Nat) : cell (m.set i row) a b = if a = i then row[b]? else cell m a b := by
  unfold cell
  by_cases h : a = i
  · subst h
    simp [List.getElem?_set_self hi]
  · have h' : i ≠ a := fun e => h e.symm
    simp [List.getElem?_set_ne h', h]

/-- The store `segment_map[i][j] = v` succeeds inside the buffer and changes that cell
only. -/
theorem write_cell_spec (m : List (List Nat)) (h w i j v : Nat) (hd : HasDims m h w)
    (hi : i < h) (hj : j < w) :
    ∃ m', write_cell m i j v = some m' ∧ HasDims m' h w ∧
      ∀ a b, cell m' a b = if a = i ∧ b = j then some v else cell m a b := by
  obtain ⟨row, hrow, hlen⟩ := hd.row_length hi
  have hlt : i < m.length := by rw [hd.1]; exact hi
  refine ⟨m.set i (row.set j v), ?_, hd.set (by rw [List.length_set]; exact hlen), ?_⟩
  · simp [write_cell, hrow, hlen, hj]
  · intro a b
    rw [cell_set m i _ hlt]
    by_cases ha : a = i
    · subst ha
      by_cases hb : b = j
      · subst hb
        simp [List.getElem?_set_self (by rw [hlen]; exact hj : b < row.length)]
      · have hb' : j ≠ b := fun e => hb e.symm
        simp [hb, List.getElem?_set_ne hb', cell, hrow]
    · simp [ha]

/-- The `memset` of row `i` succeeds inside the buffer, zeroes that row and leaves the
others as they were. -/
theorem clear_row_spec (m : List (List Nat)) (h w i : Nat) (hd : HasDims m h w)
    (hi : i < h) :
    ∃ m', clear_row w m i = some m' ∧ HasDims m' h w ∧
      ∀ a b, cell m' a b = if a = i then (if b < w then some 0 else none) else cell m a b := by
  obtain ⟨row, hrow, hlen⟩ := hd.row_length hi
  have hlt : i < m.length := by rw [hd.1]; exact hi
  have hdrop : row.drop w = [] := by
    apply List.drop_eq_nil_of_le
    rw [hlen]
  refine ⟨m.set i (List.replicate w 0), ?_, hd.set (by simp), ?_⟩
  · simp [clear_row, hrow, memset_row, hlen, hdrop]
  · intro a b
    rw [cell_set m i _ hlt, List.getElem?_replicate]

/-- The first loop of `set_segment_map` returns a buffer of the same dimensions whose
cells are all zero. -/
theorem clear_rows_spec (m : List (List Nat)) (h w : Nat) (hd : HasDims m h w) :
    ∃ m', (List.range h).foldlM (clear_row w) m = some m' ∧ HasDims m' h w ∧
      ∀ a b, a < h → b < w → cell m' a b = some 0 := by
  obtain ⟨m', hres, hd', hcells⟩ := foldlM_range_inv (clear_row w)
    (fun n st => HasDims st h w ∧ ∀ a b, a < n → b < w → cell st a b = some 0)
    h m ⟨hd, fun a b ha _ => absurd ha (Nat.not_lt_zero a)⟩
    (by
      rintro k st hk ⟨hdst, hz⟩
      obtain ⟨st', hst', hd', hc⟩ := clear_row_spec st h w k hdst hk
      refine ⟨st', hst', hd', ?_⟩
      intro a b ha hb
      rw [hc a b]
      by_cases hak : a = k
      · simp [hak, hb]
      · simp only [hak, if_false]
        exact hz a b (by omega) hb)
  exact ⟨m', hres, hd', hcells⟩

/-! ## Reading the tensor -/

/-- Every index the classifier computes for a pixel of the frame lies inside a tensor of
`height * width * TOTAL_LABELS` scores. -/
theorem prob_index_lt (h w i j idx : Nat) (hi : i < h) (hj : j < w)
    (hidx : idx < TOTAL_LABELS) : prob_index w i j idx < h * w * TOTAL_LABELS := by
  unfold prob_index
  apply lt_of_le_of_lt (Nat.mod_le _ _)
  have h1 : i * w + j + 1 ≤ h * w := by
    have : (i + 1) * w ≤ h * w := Nat.mul_le_mul_right w hi
    rw [Nat.add_mul, Nat.one_mul] at this
    omega
  have h2 : (i * w + j + 1) * TOTAL_LABELS ≤ h * w * TOTAL_LABELS :=
    Nat.mul_le_mul_right _ h1
  have h3 : (i * w + j + 1) * TOTAL_LABELS
      = i * w * TOTAL_LABELS + j * TOTAL_LABELS + TOTAL_LABELS := by ring
  omega

/-- The scores of a pixel of the frame are readable from a tensor of the contracted
length. -/
theorem pixel_read_some (prob_map : List ℚ) (h w i j : Nat)
    (hlen : prob_map.length = h * w * TOTAL_LABELS) (hi : i < h) (hj : j < w) :
    ∀ idx, idx < TOTAL_LABELS →
      pixel_read prob_map w i j idx = some (prob_map.getD (prob_index w i j idx) 0) := by
  intro idx hidx
  have hlt : prob_index w i j idx < prob_map.length := by
    rw [hlen]
    exact prob_index_lt h w i j idx hi hj hidx
  simp [pixel_read, List.getD, List.getElem?_eq_getElem hlt]

/-- The scan of a pixel of the frame returns, and `pixel_label` is its thresholded
winner. -/
theorem pixel_scan_spec (prob_map : List ℚ) (h w i j : Nat)
    (hlen : prob_map.length = h * w * TOTAL_LABELS) (hi : i < h) (hj : j < w) :
    ∃ k p, max_scan (pixel_read prob_map w i j) = some (k, p) ∧
      LowestMax (fun idx => prob_map.getD (prob_index w i j idx) 0) k p ∧
      pixel_label prob_map w i j = if p > DETECTION_THRESHOLD then k else 0 := by
  obtain ⟨k, p, hres, hlm⟩ := max_scan_spec (pixel_read prob_map w i j)
    (fun idx => prob_map.getD (prob_index w i j idx) 0)
    (pixel_read_some prob_map h w i j hlen hi hj)
  exact ⟨k, p, hres, hlm, by simp [pixel_label, hres]⟩

/-! ## The classifier -/

/-- One row of the second loop nest: starting from a buffer whose row `i` is zero, the
row ends up holding the labels of its pixels and the other rows are untouched. -/
theorem classify_row_spec (prob_map : List ℚ) (m : List (List Nat)) (h w i : Nat)
    (hlen : prob_map.length = h * w * TOTAL_LABELS) (hd : HasDims m h w) (hi : i < h)
    (hzero : ∀ b, b < w → cell m i b = some 0) :
    ∃ m', classify_row prob_map w m i = some m' ∧ HasDims m' h w ∧
      (∀ b, b < w → cell m' i b = some (pixel_label prob_map w i b)) ∧
      ∀ a b, a ≠ i → cell m' a b = cell m a b := by
  obtain ⟨m', hres, hd', hcells⟩ := foldlM_range_inv (classify_cell prob_map w i)
    (fun n st => HasDims st h w ∧ ∀ a b, cell st a b =
      if a = i ∧ b < n then some (pixel_label prob_map w i b) else cell m a b)
    w m ⟨hd, fun a b => by simp⟩
    (by
      rintro k st hk ⟨hdst, hc⟩
      obtain ⟨kk, p, hscan, _, hlabel⟩ := pixel_scan_spec prob_map h w i k hlen hi hk
      by_cases hp : p > DETECTION_THRESHOLD
      · obtain ⟨st', hst', hd', hw⟩ := write_cell_spec st h w i k kk hdst hi hk
        refine ⟨st', ?_, hd', ?_⟩
        · simp [classify_cell, hscan, hp, hst']
        · intro a b
          rw [hw a b, hc a b]
          by_cases ha : a = i
          · by_cases hb : b = k
            · simp [ha, hb, hlabel, hp]
            · by_cases hbk : b < k
              · simp [ha, hb, hbk, Nat.lt_succ_of_lt hbk]
              · have : ¬ b < k + 1 := by omega
                simp [ha, hb, hbk, this]
          · simp [ha]
      · refine ⟨st, ?_, hdst, ?_⟩
        · simp [classify_cell, hscan, hp]
        · intro a b
          rw [hc a b]
          by_cases ha : a = i
          · by_cases hb : b = k
            · subst ha; subst hb
              simp [hlabel, hp, hzero b hk]
            · by_cases hbk : b < k
              · simp [ha, hbk, Nat.lt_succ_of_lt hbk]
              · have : ¬ b < k + 1 := by omega
                simp [ha, hbk, this]
          · simp [ha])
  refine ⟨m', hres, hd', ?_, ?_⟩
  · intro b hb
    rw [hcells i b]
    simp [hb]
  · intro a b ha
    rw [hcells a b]
    simp [ha]

/-- The second loop nest: from a zeroed buffer, every cell ends up holding the label of
its pixel. -/
theorem classify_rows_spec (prob_map : List ℚ) (m : List (List Nat)) (h w : Nat)
    (hlen : prob_map.length = h * w * TOTAL_LABELS) (hd : HasDims m h w)
    (hzero : ∀ a b, a < h → b < w → cell m a b = some 0) :
    ∃ m', (List.range h).foldlM (classify_row prob_map w) m = some m' ∧ HasDims m' h w ∧
      ∀ a b, a < h → b < w → cell m' a b = some (pixel_label prob_map w a b) := by
  obtain ⟨m', hres, hd', hcells⟩ := foldlM_range_inv (classify_row prob_map w)
    (fun n st => HasDims st h w ∧ ∀ a b, a < h → b < w → cell st a b =
      some (if a < n then pixel_label prob_map w a b else 0))
    h m ⟨hd, fun a b ha hb => by simpa using hzero a b ha hb⟩
    (by
      rintro k st hk ⟨hdst, hc⟩
      obtain ⟨st', hst', hd', hrow, hother⟩ := classify_row_spec prob_map st h w k hlen hdst hk
        (fun b hb => by simpa using hc k b hk hb)
      refine ⟨st', hst', hd', ?_⟩
      intro a b ha hb
      by_cases hak : a = k
      · subst hak
        simp [hrow b hb]
      · rw [hother a b hak, hc a b ha hb]
        by_cases hlt : a < k
        · simp [hlt, Nat.lt_succ_of_lt hlt]
        · have : ¬ a < k + 1 := by omega
          simp [hlt, this])
  refine ⟨m', hres, hd', ?_⟩
  intro a b ha hb
  rw [hcells a b ha hb]
  simp [ha]

/-- The function `set_segment_map` returns on a well-formed context and a tensor of the
contracted length, keeps mode and dimensions, and leaves `pixel_label` in every cell. -/
theorem set_segment_map_spec (idata : image_segments) (prob_map : List ℚ)
    (m : List (List Nat)) (hm : idata.segment_map = some m)
    (hd : HasDims m idata.height idata.width)
    (hlen : prob_map.length = idata.height * idata.width * TOTAL_LABELS) :
    ∃ m', set_segment_map idata prob_map =
        some { idata with segment_map := some m' } ∧
      HasDims m' idata.height idata.width ∧
      ∀ a b, a < idata.height → b < idata.width →
        cell m' a b = some (pixel_label prob_map idata.width a b) := by
  obtain ⟨m1, h1, hd1, hz1⟩ := clear_rows_spec m idata.height idata.width hd
  obtain ⟨m2, h2, hd2, hc2⟩ :=
    classify_rows_spec prob_map m1 idata.height idata.width hlen hd1 hz1
  refine ⟨m2, ?_, hd2, hc2⟩
  simp [set_segment_map, hm, h1, h2]

/-- When `height * width * TOTAL_LABELS` fits in 32 bits, the index the classifier
computes for a pixel of the frame is the row-major index, without wrap-around. -/
theorem prob_index_no_wrap (h w i j idx : Nat) (hfit : h * w * TOTAL_LABELS ≤ 2 ^ 32)
    (hi : i < h) (hj : j < w) (hidx : idx < TOTAL_LABELS) :
    prob_index w i j idx = (i * w + j) * TOTAL_LABELS + idx := by
  have hlt := prob_index_lt h w i j idx hi hj hidx
  have hflat : (i * w + j) * TOTAL_LABELS + idx =
      i * w * TOTAL_LABELS + j * TOTAL_LABELS + idx := by ring
  have h1 : i * w + j + 1 ≤ h * w := by
    have : (i + 1) * w ≤ h * w := Nat.mul_le_mul_right w hi
    rw [Nat.add_mul, Nat.one_mul] at this
    omega
  have h2 : (i * w + j + 1) * TOTAL_LABELS ≤ h * w * TOTAL_LABELS :=
    Nat.mul_le_mul_right _ h1
  have h3 : (i * w + j + 1) * TOTAL_LABELS
      = i * w * TOTAL_LABELS + j * TOTAL_LABELS + TOTAL_LABELS := by ring
  rw [hflat]
  unfold prob_index
  exact Nat.mod_eq_of_lt (by omega)

/-- Claim C2, as amended: for every pixel `(i, j)` of a context with an allocated `height`
by `width` buffer and `height * width * 21` at most `2 ^ 32`, and every tensor of length
`height * width * 21`, `set_segment_map` returns, the pair `(max_idx, max_prob)` of the
scan is the lowest-index maximum of the pixel's 21 scores
`prob_map[(i * width + j) * 21 + idx]`, and the cell `segment_map[i][j]` equals that
index when its score is strictly greater than 0.5, and equals 0 when the score is at
most 0.5. -/
theorem set_segment_map_threshold (idata : image_segments) (prob_map : List ℚ)
    (m : List (List Nat)) (i j : Nat) (hm : idata.segment_map = some m)
    (hd : HasDims m idata.height idata.width)
    (hlen : prob_map.length = idata.height * idata.width * TOTAL_LABELS)
    (hfit : idata.height * idata.width * TOTAL_LABELS ≤ 2 ^ 32)
    (hi : i < idata.height) (hj : j < idata.width) :
    ∃ m' k p, set_segment_map idata prob_map =
        some { idata with segment_map := some m' } ∧
      max_scan (pixel_read prob_map idata.width i j) = some (k, p) ∧
      LowestMax (fun idx => prob_map.getD ((i * idata.width + j) * TOTAL_LABELS + idx) 0)
        k p ∧
      (p > DETECTION_THRESHOLD → cell m' i j = some k) ∧
      (p ≤ DETECTION_THRESHOLD → cell m' i j = some 0) := by
  obtain ⟨m', hres, _, hcells⟩ := set_segment_map_spec idata prob_map m hm hd hlen
  obtain ⟨k, p, hscan, hlm, hlabel⟩ :=
    pixel_scan_spec prob_map idata.height idata.width i j hlen hi hj
  refine ⟨m', k, p, hres, hscan, ?_, ?_, ?_⟩
  · refine ⟨hlm.1, ?_, ?_, ?_⟩
    · have := hlm.2.1
      simp only at this ⊢
      rw [← prob_index_no_wrap idata.height idata.width i j k hfit hi hj hlm.1]
      exact this
    · intro idx hidx
      have := hlm.2.2.1 idx hidx
      simp only at this ⊢
      rw [← prob_index_no_wrap idata.height idata.width i j idx hfit hi hj hidx]
      exact this
    · intro idx hidx
      have := hlm.2.2.2 idx hidx
      simp only at this ⊢
      rw [← prob_index_no_wrap idata.height idata.width i j idx hfit hi hj
        (lt_trans hidx hlm.1)]
      exact this
  · intro hp
    rw [hcells i j hi hj, hlabel, if_pos hp]
  · intro hp
    rw [hcells i j hi hj, hlabel, if_neg (not_lt.mpr hp)]

/-- Witness for C2 as amended at pixel `(0, 1)` of the two-by-two context, whose best
score is exactly the threshold. -/
theorem set_segment_map_threshold_witness :
    small_context.segment_map = some [[7, 7], [7, 7]] ∧
    HasDims [[7, 7], [7, 7]] small_context.height small_context.width ∧
    small_tensor.length = small_context.height * small_context.width * TOTAL_LABELS ∧
    small_context.height * small_context.width * TOTAL_LABELS ≤ 2 ^ 32 ∧
    ∃ m' k p, set_segment_map small_context small_tensor =
        some { small_context with segment_map := some m' } ∧
      max_scan (pixel_read small_tensor small_context.width 0 1) = some (k, p) ∧
      LowestMax
        (fun idx => small_tensor.getD ((0 * small_context.width + 1) * TOTAL_LABELS + idx) 0)
        k p ∧
      (p > DETECTION_THRESHOLD → cell m' 0 1 = some k) ∧
      (p ≤ DETECTION_THRESHOLD → cell m' 0 1 = some 0) :=
  have hd : HasDims [[7, 7], [7, 7]] small_context.height small_context.width := by
    simp [HasDims, small_context]
  have hlen : small_tensor.length =
      small_context.height * small_context.width * TOTAL_LABELS := by
    simp [small_tensor, small_context, TOTAL_LABELS]
  ⟨rfl, hd, hlen, by decide,
    set_segment_map_threshold small_context small_tensor [[7, 7], [7, 7]] 0 1 rfl hd hlen
      (by decide) (by decide) (by decide)⟩

/-! ## The renderer -/

/-- The flat position of a cell of the frame is below `height * width`. -/
theorem flat_lt (h w i j : Nat) (hi : i < h) (hj : j < w) : i * w + j < h * w := by
  have : (i + 1) * w ≤ h * w := Nat.mul_le_mul_right w hi
  rw [Nat.add_mul, Nat.one_mul] at this
  omega

/-- The position the renderer writes is always below `2 ^ 32` and never beyond the flat
position of the cell. -/
theorem frame_index_le (w i j : Nat) :
    frame_index w i j < 2 ^ 32 ∧ frame_index w i j ≤ i * w + j :=
  ⟨Nat.mod_lt _ (by norm_num), Nat.mod_le _ _⟩

/-- One store of the renderer: it succeeds and writes the palette colour of the cell. -/
theorem color_cell_spec (m : List (List Nat)) (frame : List Nat) (h w i j : Nat)
    (hv : CellsValid m h w) (hi : i < h) (hj : j < w) (hlen : h * w ≤ frame.length) :
    ∃ c, pixel_color m i j = some c ∧
      color_cell m w i frame j = some (frame.set (frame_index w i j) c) := by
  obtain ⟨l, hl, hl21⟩ := hv i j hi hj
  have hl21' : l < labelColor.length := hl21
  have hc : labelColor[l]? = some (labelColor[l]) := List.getElem?_eq_getElem hl21'
  have hpos : frame_index w i j < frame.length :=
    lt_of_le_of_lt (frame_index_le w i j).2 (lt_of_lt_of_le (flat_lt h w i j hi hj) hlen)
  refine ⟨labelColor[l], by simp [pixel_color, hl, hc], ?_⟩
  unfold cell at hl
  cases hrow : m[i]? with
  | none => rw [hrow] at hl; exact absurd hl (by simp)
  | some row =>
    rw [hrow] at hl
    simp only at hl
    simp only [color_cell, hrow, hl, hc, hpos, if_true]

/-- One row of the renderer: it succeeds, keeps the buffer length, never touches a word
at index `2 ^ 32` or above, and, when `height * width` fits in 32 bits, writes exactly the
words of row `i`. -/
theorem color_row_spec (m : List (List Nat)) (frame : List Nat) (h w i : Nat)
    (hv : CellsValid m h w) (hi : i < h) (hlen : h * w ≤ frame.length) :
    ∃ f', color_row m w frame i = some f' ∧ f'.length = frame.length ∧
      (∀ p, 2 ^ 32 ≤ p → f'[p]? = frame[p]?) ∧
      (h * w ≤ 2 ^ 32 → ∀ p, f'[p]? =
        if i * w ≤ p ∧ p < i * w + w then pixel_color m i (p - i * w) else frame[p]?) := by
  obtain ⟨f', hres, hl', hhigh, hlow⟩ := foldlM_range_inv (color_cell m w i)
    (fun n st => st.length = frame.length ∧ (∀ p, 2 ^ 32 ≤ p → st[p]? = frame[p]?) ∧
      (h * w ≤ 2 ^ 32 → ∀ p, st[p]? =
        if i * w ≤ p ∧ p < i * w + n then pixel_color m i (p - i * w) else frame[p]?))
    w frame ⟨rfl, fun _ _ => rfl, fun _ p => by
      have : ¬ (i * w ≤ p ∧ p < i * w + 0) := by omega
      rw [if_neg this]⟩
    (by
      rintro k st hk ⟨hlst, hhigh, hlow⟩
      obtain ⟨c, hc, hstep⟩ := color_cell_spec m st h w i k hv hi hk (by rw [hlst]; exact hlen)
      have hidx := frame_index_le w i k
      have hpos : frame_index w i k < st.length := by
        rw [hlst]
        exact lt_of_le_of_lt hidx.2 (lt_of_lt_of_le (flat_lt h w i k hi hk) hlen)
      refine ⟨_, hstep, by rw [List.length_set]; exact hlst, ?_, ?_⟩
      · intro p hp
        have hne : frame_index w i k ≠ p := by omega
        rw [List.getElem?_set_ne hne]
        exact hhigh p hp
      · intro hfit p
        have hflat := flat_lt h w i k hi hk
        have heq : frame_index w i k = i * w + k := by
          unfold frame_index
          exact Nat.mod_eq_of_lt (by omega)
        rw [heq] at hpos ⊢
        by_cases hp : p = i * w + k
        · subst hp
          rw [List.getElem?_set_self hpos]
          have h1 : i * w ≤ i * w + k ∧ i * w + k < i * w + (k + 1) := by omega
          rw [if_pos h1, Nat.add_sub_cancel_left, hc]
        · have hne : i * w + k ≠ p := fun e => hp e.symm
          rw [List.getElem?_set_ne hne, hlow hfit p]
          by_cases hin : i * w ≤ p ∧ p < i * w + k
          · have h1 : i * w ≤ p ∧ p < i * w + (k + 1) := by omega
            rw [if_pos hin, if_pos h1]
          · have h1 : ¬ (i * w ≤ p ∧ p < i * w + (k + 1)) := by omega
            rw [if_neg hin, if_neg h1])
  exact ⟨f', hres, hl', hhigh, hlow⟩

/-- The renderer on a well-formed context and a buffer of at least `height * width`
words: it succeeds, keeps the buffer length and never touches a word at index `2 ^ 32` or
above; when `height * width` fits in 32 bits, the word of every cell is its palette
colour and every word from `height * width` on is untouched. -/
theorem render_spec (idata : image_segments) (frame : List Nat) (m : List (List Nat))
    (hm : idata.segment_map = some m)
    (hv : CellsValid m idata.height idata.width)
    (hlen : idata.height * idata.width ≤ frame.length) :
    ∃ f', setColorAccourdingToLabel idata frame = some f' ∧ f'.length = frame.length ∧
      (∀ p, 2 ^ 32 ≤ p → f'[p]? = frame[p]?) ∧
      (idata.height * idata.width ≤ 2 ^ 32 →
        (∀ i j, i < idata.height → j < idata.width →
          f'[i * idata.width + j]? = pixel_color m i j) ∧
        ∀ p, idata.height * idata.width ≤ p → f'[p]? = frame[p]?) := by
  obtain ⟨f', hres, hl', hhigh, hlow⟩ := foldlM_range_inv (color_row m idata.width)
    (fun n st => st.length = frame.length ∧ (∀ p, 2 ^ 32 ≤ p → st[p]? = frame[p]?) ∧
      (idata.height * idata.width ≤ 2 ^ 32 →
        (∀ i j, i < idata.height → j < idata.width → st[i * idata.width + j]? =
          if i < n then pixel_color m i j else frame[i * idata.width + j]?) ∧
        ∀ p, idata.height * idata.width ≤ p → st[p]? = frame[p]?))
    idata.height frame
    ⟨rfl, fun _ _ => rfl, fun _ => ⟨fun i j _ _ => by simp, fun _ _ => rfl⟩⟩
    (by
      rintro k st hk ⟨hlst, hhigh, hlow⟩
      obtain ⟨st', hst', hl', hhigh', hrow⟩ := color_row_spec m st idata.height idata.width k
        hv hk (by rw [hlst]; exact hlen)
      refine ⟨st', hst', by rw [hl', hlst], ?_, ?_⟩
      · intro p hp
        rw [hhigh' p hp, hhigh p hp]
      · intro hfit
        obtain ⟨hcells, hrest⟩ := hlow hfit
        have hkrow : (k + 1) * idata.width ≤ idata.height * idata.width :=
          Nat.mul_le_mul_right _ hk
        rw [Nat.add_mul, Nat.one_mul] at hkrow
        constructor
        · intro i j hi hj
          rw [hrow hfit]
          by_cases hik : i = k
          · subst hik
            have h1 : i * idata.width ≤ i * idata.width + j ∧
                i * idata.width + j < i * idata.width + idata.width := by omega
            rw [if_pos h1, if_pos (Nat.lt_succ_self i), Nat.add_sub_cancel_left]
          · have h1 : ¬ (k * idata.width ≤ i * idata.width + j ∧
                i * idata.width + j < k * idata.width + idata.width) := by
              rcases Nat.lt_or_gt_of_ne hik with hlt | hgt
              · have : (i + 1) * idata.width ≤ k * idata.width :=
                  Nat.mul_le_mul_right _ hlt
                rw [Nat.add_mul, Nat.one_mul] at this
                omega
              · have : (k + 1) * idata.width ≤ i * idata.width :=
                  Nat.mul_le_mul_right _ hgt
                rw [Nat.add_mul, Nat.one_mul] at this
                omega
            rw [if_neg h1, hcells i j hi hj]
            by_cases hlt : i < k
            · rw [if_pos hlt, if_pos (Nat.lt_succ_of_lt hlt)]
            · have : ¬ i < k + 1 := by omega
              rw [if_neg hlt, if_neg this]
        · intro p hp
          have h1 : ¬ (k * idata.width ≤ p ∧ p < k * idata.width + idata.width) := by omega
          rw [hrow hfit, if_neg h1]
          exact hrest p hp)
  refine ⟨f', ?_, hl', hhigh, ?_⟩
  · simp only [setColorAccourdingToLabel, hm]
    exact hres
  · intro hfit
    obtain ⟨hcells, hrest⟩ := hlow hfit
    refine ⟨?_, hrest⟩
    intro i j hi hj
    rw [hcells i j hi hj, if_pos hi]

/-- A buffer of equal rows of equal cells has the dimensions it was built with. -/
theorem HasDims_replicate (h w v : Nat) :
    HasDims (List.replicate h (List.replicate w v)) h w := by
  refine ⟨List.length_replicate h _, ?_⟩
  intro row hrow
  rw [List.eq_of_mem_replicate hrow]
  exact List.length_replicate w v

/-- Every cell of a buffer of equal rows of equal cells holds that value. -/
theorem cell_replicate (h w v i j : Nat) (hi : i < h) (hj : j < w) :
    cell (List.replicate h (List.replicate w v)) i j = some v := by
  unfold cell
  rw [List.getElem?_replicate, if_pos hi]
  simp only
  rw [List.getElem?_replicate, if_pos hj]

/-- A buffer filled with one label below `TOTAL_LABELS` has valid cells. -/
theorem CellsValid_replicate (h w v : Nat) (hv : v < TOTAL_LABELS) :
    CellsValid (List.replicate h (List.replicate w v)) h w :=
  fun i j hi hj => ⟨v, cell_replicate h w v i j hi hj, hv⟩

/-- Claim C4, as amended: for every context with `height * width` at most `2 ^ 32` whose
buffer has a label below 21 in each of its `height` by `width` cells, and every output
buffer of at least `width * height` 32-bit words, `setColorAccourdingToLabel` returns
and the word at index `i * width + j` equals `labelColor[segment_map[i][j]]` for every
`i < height` and `j < width`; the buffer keeps its length. -/
theorem setColor_writes_palette (idata : image_segments) (frame : List Nat)
    (m : List (List Nat)) (hm : idata.segment_map = some m)
    (hv : CellsValid m idata.height idata.width)
    (hlen : idata.height * idata.width ≤ frame.length)
    (hfit : idata.height * idata.width ≤ 2 ^ 32) :
    ∃ f', setColorAccourdingToLabel idata frame = some f' ∧ f'.length = frame.length ∧
      ∀ i j, i < idata.height → j < idata.width →
        ∃ l c, cell m i j = some l ∧ labelColor[l]? = some c ∧
          f'[i * idata.width + j]? = some c := by
  obtain ⟨f', hres, hl', _, hlow⟩ := render_spec idata frame m hm hv hlen
  refine ⟨f', hres, hl', ?_⟩
  intro i j hi hj
  obtain ⟨l, hl, hl21⟩ := hv i j hi hj
  have hl21' : l < labelColor.length := hl21
  refine ⟨l, labelColor[l], hl, List.getElem?_eq_getElem hl21', ?_⟩
  rw [(hlow hfit).1 i j hi hj]
  simp [pixel_color, hl, List.getElem?_eq_getElem hl21']

/-- Witness for C4 on the two-by-two context and a buffer of five words. -/
theorem setColor_writes_palette_witness :
    small_context.segment_map = some [[7, 7], [7, 7]] ∧
    CellsValid [[7, 7], [7, 7]] small_context.height small_context.width ∧
    small_context.height * small_context.width ≤ [1, 2, 3, 4, 5].length ∧
    small_context.height * small_context.width ≤ 2 ^ 32 ∧
    ∃ f', setColorAccourdingToLabel small_context [1, 2, 3, 4, 5] = some f' ∧
      f'.length = [1, 2, 3, 4, 5].length ∧
      ∀ i j, i < small_context.height → j < small_context.width →
        ∃ l c, cell [[7, 7], [7, 7]] i j = some l ∧ labelColor[l]? = some c ∧
          f'[i * small_context.width + j]? = some c :=
  have hv : CellsValid [[7, 7], [7, 7]] small_context.height small_context.width :=
    CellsValid_replicate 2 2 7 (by decide)
  ⟨rfl, hv, by decide, by decide,
    setColor_writes_palette small_context [1, 2, 3, 4, 5] [[7, 7], [7, 7]] rfl hv
      (by decide) (by decide)⟩

/-- Counterexample to C4 as stated: with 65537 rows of 65536 cells the position
`i * width + j` of cell `(65536, 0)` is `2 ^ 32`, the 32-bit index wraps to `0`, and the
word at index `2 ^ 32` of the buffer is never written. -/
theorem setColor_index_wraps :
    ¬ ∀ (idata : image_segments) (frame : List Nat) (m : List (List Nat)),
      idata.segment_map = some m →
      HasDims m idata.height idata.width →
      CellsValid m idata.height idata.width →
      idata.width * idata.height ≤ frame.length →
      ∃ f', setColorAccourdingToLabel idata frame = some f' ∧
        ∀ i j, i < idata.height → j < idata.width →
          ∃ l c, cell m i j = some l ∧ labelColor[l]? = some c ∧
            f'[i * idata.width + j]? = some c := by
  intro hclaim
  have hv : CellsValid (List.replicate 65537 (List.replicate 65536 0))
      wide_context.height wide_context.width :=
    CellsValid_replicate 65537 65536 0 (by decide)
  have hlen : wide_context.height * wide_context.width ≤ wide_frame.length := by
    unfold wide_frame
    rw [List.length_replicate]
    exact Nat.le_refl _
  have hlen' : wide_context.width * wide_context.height ≤ wide_frame.length := by
    rw [Nat.mul_comm]
    exact hlen
  obtain ⟨f', hres, hcells⟩ := hclaim wide_context wide_frame
    (List.replicate 65537 (List.replicate 65536 0)) rfl
    (HasDims_replicate 65537 65536 0) hv hlen'
  obtain ⟨f'', hres', _, hhigh, _⟩ := render_spec wide_context wide_frame
    (List.replicate 65537 (List.replicate 65536 0)) rfl hv hlen
  have hff : f'' = f' := by
    rw [hres] at hres'
    exact (Option.some.inj hres').symm
  subst hff
  have h65536 : (65536 : Nat) < wide_context.height := by
    show (65536 : Nat) < 65537
    norm_num
  have h0 : (0 : Nat) < wide_context.width := by
    show (0 : Nat) < 65536
    norm_num
  obtain ⟨l, c, hl, hc, hword⟩ := hcells 65536 0 h65536 h0
  rw [cell_replicate 65537 65536 0 65536 0 (by norm_num) (by norm_num)] at hl
  have hl0 : l = 0 := (Option.some.inj hl).symm
  subst hl0
  have hc' : c = 0xFF000080 := by
    have : labelColor[0]? = some 0xFF000080 := rfl
    rw [this] at hc
    exact (Option.some.inj hc).symm
  have hp : (2 : Nat) ^ 32 ≤ 65536 * wide_context.width + 0 := by
    show (2 : Nat) ^ 32 ≤ 65536 * 65536 + 0
    norm_num
  have hold := hhigh (65536 * wide_context.width + 0) hp
  rw [hword] at hold
  have hzero : wide_frame[65536 * wide_context.width + 0]? = some 0 := by
    unfold wide_frame
    rw [List.getElem?_replicate]
    have : 65536 * wide_context.width + 0 < 65537 * 65536 := by
      show 65536 * 65536 + 0 < 65537 * 65536
      norm_num
    rw [if_pos this]
  rw [hzero, hc'] at hold
  have := Option.some.inj hold
  norm_num at this

/-! ## Decoding one frame -/

/-- The lowest-index maximum only depends on the 21 scores. -/
theorem LowestMax_congr (s s' : Nat → ℚ) (k : Nat) (p : ℚ)
    (hs : ∀ idx, idx < TOTAL_LABELS → s idx = s' idx) (h : LowestMax s k p) :
    LowestMax s' k p := by
  obtain ⟨hk, hsk, hmax, hlow⟩ := h
  refine ⟨hk, by rw [← hs k hk]; exact hsk, ?_, ?_⟩
  · intro idx hidx
    rw [← hs idx hidx]
    exact hmax idx hidx
  · intro idx hidx
    rw [← hs idx (lt_trans hidx hk)]
    exact hlow idx hidx

/-- The label of a pixel of the frame is below `TOTAL_LABELS`. -/
theorem pixel_label_lt (prob_map : List ℚ) (h w i j : Nat)
    (hlen : prob_map.length = h * w * TOTAL_LABELS) (hi : i < h) (hj : j < w) :
    pixel_label prob_map w i j < TOTAL_LABELS := by
  obtain ⟨k, p, _, hlm, hlabel⟩ := pixel_scan_spec prob_map h w i j hlen hi hj
  rw [hlabel]
  by_cases hp : p > DETECTION_THRESHOLD
  · rw [if_pos hp]; exact hlm.1
  · rw [if_neg hp]; decide

/-- The memory `is_decode` hands to the renderer holds at least `size / 4` words. -/
theorem memset_words_length (data : List Nat) (size : Nat) :
    size / 4 ≤ (memset_words data size).length := by
  simp [memset_words]

/-- In a 257 by 257 frame the 32-bit tensor index is the row-major index. -/
theorem prob_index_tflite (i j idx : Nat) (hi : i < 257) (hj : j < 257)
    (hidx : idx < TOTAL_LABELS) :
    prob_index 257 i j idx = (i * 257 + j) * 21 + idx := by
  have hlt : idx < 21 := hidx
  unfold prob_index TOTAL_LABELS
  rw [Nat.mod_eq_of_lt (by omega)]
  omega

/-- The function `is_decode` on a 257 by 257 context in tflite mode, a float32
configuration with 21 labels and a tensor of the contracted length: it returns
`GST_FLOW_OK`, the context keeps mode and dimensions, every cell holds `pixel_label`,
and every pixel word is the palette colour of that label. -/
theorem is_decode_tflite_spec (idata : image_segments) (config : GstTensorsConfig)
    (input : List ℚ) (outbuf : List Nat) (m : List (List Nat))
    (hmode : idata.mode = TFLITE_IMAGE_SEGMENT)
    (hw : idata.width = 257) (hh : idata.height = 257)
    (hm : idata.segment_map = some m) (hd : HasDims m 257 257)
    (htype : config.type = tensor_type._NNS_FLOAT32)
    (hdim : config.dimension0 = TOTAL_LABELS)
    (hlen : input.length = 257 * 257 * 21) :
    ∃ m' frame, is_decode idata config input outbuf =
        some ({ idata with segment_map := some m' }, frame, GstFlowReturn.GST_FLOW_OK) ∧
      HasDims m' 257 257 ∧
      (∀ i j, i < 257 → j < 257 → cell m' i j = some (pixel_label input 257 i j)) ∧
      ∀ i j, i < 257 → j < 257 →
        frame[i * 257 + j]? = labelColor[pixel_label input 257 i j]? := by
  have hlen' : input.length = idata.height * idata.width * TOTAL_LABELS := by
    rw [hh, hw, hlen]; rfl
  have hd' : HasDims m idata.height idata.width := by rw [hh, hw]; exact hd
  obtain ⟨m', hset, hdm', hcells⟩ := set_segment_map_spec idata input m hm hd' hlen'
  rw [hh, hw] at hdm' hcells
  have hlen257 : input.length = 257 * 257 * TOTAL_LABELS := by rw [hlen]; rfl
  have hv : CellsValid m' 257 257 := fun i j hi hj =>
    ⟨pixel_label input 257 i j, hcells i j hi hj,
      pixel_label_lt input 257 257 i j hlen257 hi hj⟩
  have hsize : ((257 * 257 * 4) % 2 ^ 32) / 4 = 257 * 257 := by norm_num
  obtain ⟨frame, hren, _, _, hlow⟩ := render_spec
    ({ idata with segment_map := some m' } : image_segments)
    (memset_words (if gst_buffer_get_size outbuf = 0
        then gst_allocator_alloc ((257 * 257 * 4) % 2 ^ 32)
      else if gst_buffer_get_size outbuf < (257 * 257 * 4) % 2 ^ 32
        then gst_buffer_set_size outbuf ((257 * 257 * 4) % 2 ^ 32)
      else outbuf) ((257 * 257 * 4) % 2 ^ 32))
    m' rfl (by simp only [hh, hw]; exact hv)
    (by
      simp only [hh, hw]
      have := memset_words_length (if gst_buffer_get_size outbuf = 0
          then gst_allocator_alloc ((257 * 257 * 4) % 2 ^ 32)
        else if gst_buffer_get_size outbuf < (257 * 257 * 4) % 2 ^ 32
          then gst_buffer_set_size outbuf ((257 * 257 * 4) % 2 ^ 32)
        else outbuf) ((257 * 257 * 4) % 2 ^ 32)
      rw [hsize] at this
      exact this)
  simp only [hh, hw] at hlow
  refine ⟨m', frame, ?_, hdm', hcells, ?_⟩
  · simp only [is_decode, hmode, htype, hdim, hw, hh, if_true, and_self, hset]
    simp only [hw, hh, hmode] at hren
    rw [hren]
  · intro i j hi hj
    rw [(hlow (by norm_num)).1 i j hi hj]
    simp [pixel_color, hcells i j hi hj]

/-- Claim C3: for every context in tflite mode (257 by 257, buffer allocated), every
float32 configuration with 21 labels and every input tensor of length `257 * 257 * 21`,
`is_decode` returns `GST_FLOW_OK` and the word of output pixel `(i, j)` is
`labelColor[l]`, where `l` is the lowest-index maximum label of the 21 scores
`input[(i * 257 + j) * 21 + idx]` when that maximum exceeds 0.5 and `0` otherwise. -/
theorem is_decode_tflite_colours (idata : image_segments) (config : GstTensorsConfig)
    (input : List ℚ) (outbuf : List Nat) (m : List (List Nat))
    (hmode : idata.mode = TFLITE_IMAGE_SEGMENT)
    (hw : idata.width = 257) (hh : idata.height = 257)
    (hm : idata.segment_map = some m) (hd : HasDims m 257 257)
    (htype : config.type = tensor_type._NNS_FLOAT32)
    (hdim : config.dimension0 = TOTAL_LABELS)
    (hlen : input.length = 257 * 257 * 21) :
    ∃ idata' frame, is_decode idata config input outbuf =
        some (idata', frame, GstFlowReturn.GST_FLOW_OK) ∧
      ∀ i j, i < 257 → j < 257 →
        ∃ k p c, LowestMax (fun idx => input.getD ((i * 257 + j) * 21 + idx) 0) k p ∧
          labelColor[if p > DETECTION_THRESHOLD then k else 0]? = some c ∧
          frame[i * 257 + j]? = some c := by
  obtain ⟨m', frame, hres, _, _, hframe⟩ :=
    is_decode_tflite_spec idata config input outbuf m hmode hw hh hm hd htype hdim hlen
  refine ⟨_, frame, hres, ?_⟩
  intro i j hi hj
  have hlen257 : input.length = 257 * 257 * TOTAL_LABELS := by rw [hlen]; rfl
  obtain ⟨k, p, _, hlm, hlabel⟩ := pixel_scan_spec input 257 257 i j hlen257 hi hj
  have hlt := pixel_label_lt input 257 257 i j hlen257 hi hj
  have hlt' : pixel_label input 257 i j < labelColor.length := hlt
  refine ⟨k, p, labelColor[pixel_label input 257 i j], ?_, ?_, ?_⟩
  · apply LowestMax_congr _ _ k p _ hlm
    intro idx hidx
    show input.getD (prob_index 257 i j idx) 0 = input.getD ((i * 257 + j) * 21 + idx) 0
    rw [prob_index_tflite i j idx hi hj hidx]
  · rw [← hlabel]
    exact List.getElem?_eq_getElem hlt'
  · rw [hframe i j hi hj]
    exact List.getElem?_eq_getElem hlt'

/-! ## Mode selection -/

/-- Selecting a name that resolves to tflite on a context in another mode allocates the
257 by 257 zero buffer. -/
theorem is_setOption_select (find_key : List String → Option String → Int)
    (idata : image_segments) (param : String)
    (hkey : find_key is_modes (some param) = TFLITE_IMAGE_SEGMENT)
    (hparam : param ≠ "") (hmode : idata.mode ≠ TFLITE_IMAGE_SEGMENT) :
    is_setOption find_key idata 0 (some param) =
      ({ mode := TFLITE_IMAGE_SEGMENT, width := TFLITE_IMAGE_SIZE,
         height := TFLITE_IMAGE_SIZE,
         segment_map :=
           some (List.replicate TFLITE_IMAGE_SIZE (List.replicate TFLITE_IMAGE_SIZE 0)) },
        true) := by
  have h1 : TFLITE_IMAGE_SEGMENT ≠ idata.mode := fun e => hmode e.symm
  have h2 : TFLITE_IMAGE_SEGMENT ≠ UNKNOWN_IMAGE_SEGMENT := by decide
  simp only [is_setOption, hkey, if_true, reduceCtorEq, Option.some.injEq, hparam, or_self,
    if_false, ne_eq, h1, h2, not_false_eq_true, and_self, _init_modes]

/-- The modelled lookup resolves `"tflite"` to `TFLITE_IMAGE_SEGMENT`. -/
theorem find_key_strv_tflite :
    find_key_strv is_modes (some "tflite") = TFLITE_IMAGE_SEGMENT := by
  decide

/-- The context `tflite_context` spelled out. -/
theorem tflite_context_eq :
    tflite_context =
      { mode := TFLITE_IMAGE_SEGMENT, width := TFLITE_IMAGE_SIZE,
        height := TFLITE_IMAGE_SIZE,
        segment_map :=
          some (List.replicate TFLITE_IMAGE_SIZE (List.replicate TFLITE_IMAGE_SIZE 0)) } := by
  unfold tflite_context
  rw [is_setOption_select find_key_strv is_init.1 "tflite" find_key_strv_tflite
    (by decide) (by decide)]

/-! ## The end-to-end scenario -/

/-- The scores of the scenario tensor. -/
theorem scenario_tensor_getD (n : Nat) (hn : n < 257 * 257 * 21) :
    scenario_tensor.getD n 0 = if n = 5 then score_0_9 else 0 := by
  unfold scenario_tensor
  rw [List.getD_eq_getElem?_getD, List.getElem?_map, List.getElem?_range hn]
  rfl

/-- The scenario tensor has the contracted length. -/
theorem scenario_tensor_length : scenario_tensor.length = 257 * 257 * 21 := by
  unfold scenario_tensor
  rw [List.length_map, List.length_range]

/-- Witness for C3, the end-to-end scenario: on the tflite context, with the tensor that
is zero except for score 0.9 at label 5 of pixel `(0, 0)`, `is_decode` returns, pixel
`(0, 0)` is `labelColor[5]` and every other pixel is `labelColor[0]`. -/
theorem is_decode_tflite_colours_witness :
    scenario_tensor.length = 257 * 257 * 21 ∧
    ∃ idata' frame, is_decode tflite_context scenario_config scenario_tensor [] =
        some (idata', frame, GstFlowReturn.GST_FLOW_OK) ∧
      frame[0]? = some 0xFF00FF00 ∧
      ∀ i j, i < 257 → j < 257 → (i ≠ 0 ∨ j ≠ 0) →
        frame[i * 257 + j]? = some 0xFF000080 := by
  refine ⟨scenario_tensor_length, ?_⟩
  obtain ⟨idata', frame, hres, hall⟩ := is_decode_tflite_colours tflite_context
    scenario_config scenario_tensor []
    (List.replicate TFLITE_IMAGE_SIZE (List.replicate TFLITE_IMAGE_SIZE 0))
    (by rw [tflite_context_eq]) (by rw [tflite_context_eq]; rfl)
    (by rw [tflite_context_eq]; rfl) (by rw [tflite_context_eq])
    (HasDims_replicate 257 257 0) rfl rfl scenario_tensor_length
  have hpos : (0 : ℚ) < score_0_9 := by norm_num [score_0_9]
  have hthr : score_0_9 > DETECTION_THRESHOLD := by
    norm_num [score_0_9, DETECTION_THRESHOLD]
  refine ⟨idata', frame, hres, ?_, ?_⟩
  · obtain ⟨k, p, c, hlm, hc, hword⟩ := hall 0 0 (by norm_num) (by norm_num)
    have hscore : ∀ idx, idx < TOTAL_LABELS →
        scenario_tensor.getD ((0 * 257 + 0) * 21 + idx) 0 =
          if idx = 5 then score_0_9 else 0 := by
      intro idx hidx
      have h21 : idx < 21 := hidx
      rw [scenario_tensor_getD _ (by omega)]
      have : ((0 * 257 + 0) * 21 + idx = 5) ↔ idx = 5 := by omega
      simp only [this]
    have hbest : LowestMax (fun idx => scenario_tensor.getD ((0 * 257 + 0) * 21 + idx) 0)
        5 score_0_9 := by
      refine ⟨by decide, ?_, ?_, ?_⟩
      · show scenario_tensor.getD ((0 * 257 + 0) * 21 + 5) 0 = score_0_9
        rw [hscore 5 (by decide), if_pos rfl]
      · intro idx hidx
        show scenario_tensor.getD ((0 * 257 + 0) * 21 + idx) 0 ≤ score_0_9
        rw [hscore idx hidx]
        by_cases h5 : idx = 5
        · rw [if_pos h5]
        · rw [if_neg h5]; exact le_of_lt hpos
      · intro idx hidx
        show scenario_tensor.getD ((0 * 257 + 0) * 21 + idx) 0 < score_0_9
        have h5 : idx ≠ 5 := by omega
        rw [hscore idx (lt_trans hidx (by decide)), if_neg h5]
        exact hpos
    obtain ⟨hk, hp⟩ := LowestMax_unique _ k 5 p score_0_9 hlm hbest
    subst hk
    subst hp
    rw [if_pos hthr] at hc
    have hc5 : labelColor[5]? = some 0xFF00FF00 := rfl
    rw [hc5] at hc
    have hzero : 0 * 257 + 0 = 0 := by norm_num
    rw [hzero] at hword
    rw [hword, ← hc]
  · intro i j hi hj hne
    obtain ⟨k, p, c, hlm, hc, hword⟩ := hall i j hi hj
    have hscore : ∀ idx, idx < TOTAL_LABELS →
        scenario_tensor.getD ((i * 257 + j) * 21 + idx) 0 = 0 := by
      intro idx hidx
      have h21 : idx < 21 := hidx
      rw [scenario_tensor_getD _ (by omega)]
      have : ¬ ((i * 257 + j) * 21 + idx = 5) := by omega
      rw [if_neg this]
    have hbest : LowestMax (fun idx => scenario_tensor.getD ((i * 257 + j) * 21 + idx) 0)
        0 0 := by
      refine ⟨by decide, hscore 0 (by decide), ?_, ?_⟩
      · intro idx hidx
        show scenario_tensor.getD ((i * 257 + j) * 21 + idx) 0 ≤ 0
        rw [hscore idx hidx]
      · intro idx hidx
        exact absurd hidx (Nat.not_lt_zero idx)
    obtain ⟨hk, hp⟩ := LowestMax_unique _ k 0 p 0 hlm hbest
    subst hk
    subst hp
    have hnot : ¬ ((0 : ℚ) > DETECTION_THRESHOLD) := by norm_num [DETECTION_THRESHOLD]
    rw [if_neg hnot] at hc
    have hc0 : labelColor[0]? = some 0xFF000080 := rfl
    rw [hc0] at hc
    rw [hword, ← hc]

/-! ## Mode selection: the claims -/

/-- Claim C5: for every context and every null or empty mode string, `is_setOption` with
option index 0 returns `FALSE` and leaves `width`, `height` and `segment_map` (the label
buffer and its contents) unchanged. -/
theorem is_setOption_invalid_keeps_buffer (find_key : List String → Option String → Int)
    (idata : image_segments) (param : Option String)
    (hparam : param = none ∨ param = some "") :
    (is_setOption find_key idata 0 param).2 = false ∧
    (is_setOption find_key idata 0 param).1.width = idata.width ∧
    (is_setOption find_key idata 0 param).1.height = idata.height ∧
    (is_setOption find_key idata 0 param).1.segment_map = idata.segment_map := by
  simp only [is_setOption, if_true, hparam, and_self]

/-- Witness for C5: the empty mode string on the two-by-two context. -/
theorem is_setOption_invalid_keeps_buffer_witness :
    ((some "" : Option String) = none ∨ (some "" : Option String) = some "") ∧
    (is_setOption find_key_strv small_context 0 (some "")).2 = false ∧
    (is_setOption find_key_strv small_context 0 (some "")).1.width = small_context.width ∧
    (is_setOption find_key_strv small_context 0 (some "")).1.height =
      small_context.height ∧
    (is_setOption find_key_strv small_context 0 (some "")).1.segment_map =
      small_context.segment_map :=
  ⟨Or.inr rfl,
    is_setOption_invalid_keeps_buffer find_key_strv small_context (some "") (Or.inr rfl)⟩

/-- The modelled lookup does not resolve the empty string. -/
theorem find_key_strv_empty :
    find_key_strv is_modes (some "") = UNKNOWN_IMAGE_SEGMENT := by
  decide

/-- Claim C6, evaluated on the code: on the tflite context the empty mode string makes
`is_setOption` return `FALSE`, yet the returned context differs from the one passed in:
its mode has been overwritten by the result of the lookup. -/
theorem is_setOption_empty_overwrites_mode :
    tflite_context.mode = TFLITE_IMAGE_SEGMENT ∧
    is_setOption find_key_strv tflite_context 0 (some "") =
      ({ tflite_context with mode := UNKNOWN_IMAGE_SEGMENT }, false) ∧
    (is_setOption find_key_strv tflite_context 0 (some "")).1 ≠ tflite_context := by
  have hmode : tflite_context.mode = TFLITE_IMAGE_SEGMENT := by rw [tflite_context_eq]
  have hres : is_setOption find_key_strv tflite_context 0 (some "") =
      ({ tflite_context with mode := UNKNOWN_IMAGE_SEGMENT }, false) := by
    simp only [is_setOption, if_true, find_key_strv_empty, or_true]
  refine ⟨hmode, hres, ?_⟩
  rw [hres]
  intro h
  have h' := congrArg image_segments.mode h
  rw [hmode] at h'
  exact absurd h' (by decide)

/-- Claim C7: for every context whose mode is already tflite, `is_setOption (0, "tflite")`
returns `TRUE` and changes nothing: mode, width, height and the label buffer with its
contents are the same; consequently, from any context, selecting `"tflite"` twice in
succession gives the same result as selecting it once. -/
theorem is_setOption_same_mode_noop (find_key : List String → Option String → Int)
    (idata : image_segments)
    (hkey : find_key is_modes (some "tflite") = TFLITE_IMAGE_SEGMENT)
    (hmode : idata.mode = TFLITE_IMAGE_SEGMENT) :
    is_setOption find_key idata 0 (some "tflite") = (idata, true) ∧
    ∀ s : image_segments,
      is_setOption find_key (is_setOption find_key s 0 (some "tflite")).1 0 (some "tflite")
        = is_setOption find_key s 0 (some "tflite") := by
  have hnoop : ∀ s : image_segments, s.mode = TFLITE_IMAGE_SEGMENT →
      is_setOption find_key s 0 (some "tflite") = (s, true) := by
    intro s hs
    have hne : ("tflite" : String) ≠ "" := by decide
    simp only [is_setOption, if_true, hkey, reduceCtorEq, Option.some.injEq, hne, or_self,
      if_false, hs, ne_eq, not_true_eq_false, false_and]
    cases s
    simp only at hs
    rw [hs]
  refine ⟨hnoop idata hmode, ?_⟩
  intro s
  by_cases hs : s.mode = TFLITE_IMAGE_SEGMENT
  · rw [hnoop s hs]
    exact hnoop s hs
  · rw [is_setOption_select find_key s "tflite" hkey (by decide) hs]
    exact hnoop _ rfl

/-- Witness for C7: the tflite context and the modelled lookup. -/
theorem is_setOption_same_mode_noop_witness :
    find_key_strv is_modes (some "tflite") = TFLITE_IMAGE_SEGMENT ∧
    tflite_context.mode = TFLITE_IMAGE_SEGMENT ∧
    is_setOption find_key_strv tflite_context 0 (some "tflite") = (tflite_context, true) ∧
    ∀ s : image_segments,
      is_setOption find_key_strv (is_setOption find_key_strv s 0 (some "tflite")).1 0
          (some "tflite")
        = is_setOption find_key_strv s 0 (some "tflite") :=
  have hmode : tflite_context.mode = TFLITE_IMAGE_SEGMENT := by rw [tflite_context_eq]
  ⟨find_key_strv_tflite, hmode,
    is_setOption_same_mode_noop find_key_strv tflite_context find_key_strv_tflite hmode⟩

/-- Claim C8: for every context whose mode is not tflite, `is_setOption (0, "tflite")`
returns `TRUE` and leaves mode = tflite, width = 257, height = 257 and a label buffer of
exactly 257 rows of 257 cells, every cell equal to 0. -/
theorem is_setOption_tflite_allocates (find_key : List String → Option String → Int)
    (idata : image_segments)
    (hkey : find_key is_modes (some "tflite") = TFLITE_IMAGE_SEGMENT)
    (hmode : idata.mode ≠ TFLITE_IMAGE_SEGMENT) :
    (is_setOption find_key idata 0 (some "tflite")).2 = true ∧
    (is_setOption find_key idata 0 (some "tflite")).1.mode = TFLITE_IMAGE_SEGMENT ∧
    (is_setOption find_key idata 0 (some "tflite")).1.width = 257 ∧
    (is_setOption find_key idata 0 (some "tflite")).1.height = 257 ∧
    ∃ m, (is_setOption find_key idata 0 (some "tflite")).1.segment_map = some m ∧
      m.length = 257 ∧ (∀ row ∈ m, row.length = 257) ∧
      ∀ i j, i < 257 → j < 257 → cell m i j = some 0 := by
  rw [is_setOption_select find_key idata "tflite" hkey (by decide) hmode]
  refine ⟨rfl, rfl, rfl, rfl, _, rfl, ?_, ?_, ?_⟩
  · exact (HasDims_replicate 257 257 0).1
  · exact (HasDims_replicate 257 257 0).2
  · intro i j hi hj
    exact cell_replicate 257 257 0 i j hi hj

/-- Witness for C8: the freshly initialised context and the modelled lookup. -/
theorem is_setOption_tflite_allocates_witness :
    find_key_strv is_modes (some "tflite") = TFLITE_IMAGE_SEGMENT ∧
    is_init.1.mode ≠ TFLITE_IMAGE_SEGMENT ∧
    (is_setOption find_key_strv is_init.1 0 (some "tflite")).2 = true ∧
    (is_setOption find_key_strv is_init.1 0 (some "tflite")).1.mode
      = TFLITE_IMAGE_SEGMENT ∧
    (is_setOption find_key_strv is_init.1 0 (some "tflite")).1.width = 257 ∧
    (is_setOption find_key_strv is_init.1 0 (some "tflite")).1.height = 257 ∧
    ∃ m, (is_setOption find_key_strv is_init.1 0 (some "tflite")).1.segment_map = some m ∧
      m.length = 257 ∧ (∀ row ∈ m, row.length = 257) ∧
      ∀ i j, i < 257 → j < 257 → cell m i j = some 0 :=
  ⟨find_key_strv_tflite, by decide,
    is_setOption_tflite_allocates find_key_strv is_init.1 find_key_strv_tflite (by decide)⟩

/-- Claim C9: for every context and every non-empty mode name that the lookup does not
resolve to tflite, `is_setOption` with option index 0 returns `TRUE`, sets the mode to the
(non-tflite) value of the lookup, and leaves `width`, `height` and the label buffer
unchanged. -/
theorem is_setOption_unknown_succeeds (find_key : List String → Option String → Int)
    (idata : image_segments) (param : String) (hparam : param ≠ "")
    (hkey : find_key is_modes (some param) ≠ TFLITE_IMAGE_SEGMENT) :
    (is_setOption find_key idata 0 (some param)).2 = true ∧
    (is_setOption find_key idata 0 (some param)).1.mode = find_key is_modes (some param) ∧
    (is_setOption find_key idata 0 (some param)).1.mode ≠ TFLITE_IMAGE_SEGMENT ∧
    (is_setOption find_key idata 0 (some param)).1.width = idata.width ∧
    (is_setOption find_key idata 0 (some param)).1.height = idata.height ∧
    (is_setOption find_key idata 0 (some param)).1.segment_map = idata.segment_map := by
  have hres : is_setOption find_key idata 0 (some param) =
      ({ idata with mode := find_key is_modes (some param) }, true) := by
    simp only [is_setOption, if_true, reduceCtorEq, Option.some.injEq, hparam, or_self,
      if_false, _init_modes, hkey]
    split <;> rfl
  rw [hres]
  exact ⟨rfl, rfl, hkey, rfl, rfl, rfl⟩

/-- The modelled lookup does not resolve `"foo"`. -/
theorem find_key_strv_foo :
    find_key_strv is_modes (some "foo") = UNKNOWN_IMAGE_SEGMENT := by
  decide

/-- Witness for C9: the name `"foo"` on the tflite context. -/
theorem is_setOption_unknown_succeeds_witness :
    ("foo" : String) ≠ "" ∧
    find_key_strv is_modes (some "foo") ≠ TFLITE_IMAGE_SEGMENT ∧
    (is_setOption find_key_strv tflite_context 0 (some "foo")).2 = true ∧
    (is_setOption find_key_strv tflite_context 0 (some "foo")).1.mode
      = find_key_strv is_modes (some "foo") ∧
    (is_setOption find_key_strv tflite_context 0 (some "foo")).1.mode
      ≠ TFLITE_IMAGE_SEGMENT ∧
    (is_setOption find_key_strv tflite_context 0 (some "foo")).1.width
      = tflite_context.width ∧
    (is_setOption find_key_strv tflite_context 0 (some "foo")).1.height
      = tflite_context.height ∧
    (is_setOption find_key_strv tflite_context 0 (some "foo")).1.segment_map
      = tflite_context.segment_map :=
  have hkey : find_key_strv is_modes (some "foo") ≠ TFLITE_IMAGE_SEGMENT := by
    rw [find_key_strv_foo]
    decide
  ⟨by decide, hkey,
    is_setOption_unknown_succeeds find_key_strv tflite_context "foo" (by decide) hkey⟩

/-! ## Reachable contexts -/

/-- A context with zero dimensions and no buffer keeps them under `is_decode`, which
then returns. -/
theorem is_decode_unallocated (idata : image_segments) (config : GstTensorsConfig)
    (input : List ℚ) (outbuf : List Nat) (hmode : idata.mode ≠ TFLITE_IMAGE_SEGMENT)
    (hh : idata.height = 0) (hm : idata.segment_map = none) :
    ∃ frame, is_decode idata config input outbuf =
      some (idata, frame, GstFlowReturn.GST_FLOW_OK) := by
  simp [is_decode, hmode, setColorAccourdingToLabel, hm, hh]

/-- One call that does not select tflite keeps a context unset: mode other than tflite,
zero dimensions, no buffer. -/
theorem step_keeps_unset (find_key : List String → Option String → Int)
    (idata idata' : image_segments) (call : Call)
    (hcall : ∀ param, call = Call.setOption 0 param →
      find_key is_modes param ≠ TFLITE_IMAGE_SEGMENT)
    (hmode : idata.mode ≠ TFLITE_IMAGE_SEGMENT) (hw : idata.width = 0)
    (hh : idata.height = 0) (hm : idata.segment_map = none)
    (hstep : step find_key idata call = some idata') :
    idata'.mode ≠ TFLITE_IMAGE_SEGMENT ∧ idata'.width = 0 ∧ idata'.height = 0 ∧
      idata'.segment_map = none := by
  cases call with
  | setOption opNum param =>
    simp only [step, Option.some.injEq] at hstep
    rw [← hstep]
    by_cases hop : opNum = 0
    · subst hop
      have hkey := hcall param rfl
      simp only [is_setOption, if_true, _init_modes, hkey, if_false]
      split
      · exact ⟨hkey, hw, hh, hm⟩
      · split <;> exact ⟨hkey, hw, hh, hm⟩
    · simp only [is_setOption, hop, if_false]
      exact ⟨hmode, hw, hh, hm⟩
  | decode config input outbuf =>
    obtain ⟨frame, hdec⟩ := is_decode_unallocated idata config input outbuf hmode hh hm
    simp only [step, hdec, Option.some.injEq] at hstep
    rw [← hstep]
    exact ⟨hmode, hw, hh, hm⟩

/-- A sequence of calls none of which selects tflite keeps a context unset. -/
theorem runFrom_keeps_unset (find_key : List String → Option String → Int)
    (calls : List Call) : ∀ (idata idata' : image_segments),
    (∀ param, Call.setOption 0 param ∈ calls →
      find_key is_modes param ≠ TFLITE_IMAGE_SEGMENT) →
    idata.mode ≠ TFLITE_IMAGE_SEGMENT → idata.width = 0 → idata.height = 0 →
    idata.segment_map = none →
    runFrom find_key idata calls = some idata' →
    idata'.mode ≠ TFLITE_IMAGE_SEGMENT ∧ idata'.width = 0 ∧ idata'.height = 0 ∧
      idata'.segment_map = none := by
  induction calls with
  | nil =>
    intro idata idata' _ hmode hw hh hm hrun
    simp only [runFrom, List.foldlM_nil] at hrun
    have : idata = idata' := Option.some.inj hrun
    rw [← this]
    exact ⟨hmode, hw, hh, hm⟩
  | cons call rest ih =>
    intro idata idata' hcalls hmode hw hh hm hrun
    simp only [runFrom, List.foldlM_cons] at hrun
    cases hstep : step find_key idata call with
    | none =>
      rw [hstep] at hrun
      exact absurd hrun (by simp)
    | some mid =>
      rw [hstep] at hrun
      obtain ⟨hmode1, hw1, hh1, hm1⟩ := step_keeps_unset find_key idata mid call
        (fun param hp => hcalls param (by rw [hp]; exact List.mem_cons_self _ _))
        hmode hw hh hm hstep
      exact ih mid idata'
        (fun param hp => hcalls param (List.mem_cons_of_mem _ hp))
        hmode1 hw1 hh1 hm1 hrun

/-- Claim C10, as amended: in every state reached from `is_init` by a sequence of
`is_setOption` and `is_decode` calls in which no `is_setOption` call with option index 0
had its mode name resolved to tflite, the mode is not tflite, width = 0, height = 0 and
the label buffer is unallocated. -/
theorem unset_until_tflite_selected (find_key : List String → Option String → Int)
    (calls : List Call) (idata : image_segments)
    (hcalls : ∀ param, Call.setOption 0 param ∈ calls →
      find_key is_modes param ≠ TFLITE_IMAGE_SEGMENT)
    (hrun : runFrom find_key is_init.1 calls = some idata) :
    idata.mode ≠ TFLITE_IMAGE_SEGMENT ∧ idata.width = 0 ∧ idata.height = 0 ∧
      idata.segment_map = none :=
  runFrom_keeps_unset find_key calls is_init.1 idata hcalls (by decide) rfl rfl rfl hrun

/-- The calls of `unset_calls` run to a context whose mode is the unknown one. -/
theorem unset_calls_run :
    runFrom find_key_strv is_init.1 unset_calls =
      some { mode := UNKNOWN_IMAGE_SEGMENT, width := 0, height := 0, segment_map := none } := by
  decide

/-- Witness for C10 as amended, on the calls of `unset_calls`. -/
theorem unset_until_tflite_selected_witness :
    (∀ param, Call.setOption 0 param ∈ unset_calls →
      find_key_strv is_modes param ≠ TFLITE_IMAGE_SEGMENT) ∧
    runFrom find_key_strv is_init.1 unset_calls =
      some { mode := UNKNOWN_IMAGE_SEGMENT, width := 0, height := 0, segment_map := none } ∧
    (UNKNOWN_IMAGE_SEGMENT ≠ TFLITE_IMAGE_SEGMENT ∧ (0 : Nat) = 0 ∧ (0 : Nat) = 0 ∧
      (none : Option (List (List Nat))) = none) :=
  have hcalls : ∀ param, Call.setOption 0 param ∈ unset_calls →
      find_key_strv is_modes param ≠ TFLITE_IMAGE_SEGMENT := by
    intro param hp
    simp only [unset_calls, List.mem_cons, Call.setOption.injEq, true_and, reduceCtorEq,
      List.mem_singleton, false_or, List.not_mem_nil, or_false] at hp
    rcases hp with h | h | h
    · rw [h, find_key_strv_foo]; decide
    · rw [h]; decide
    · exact absurd h.1 (by decide)
  ⟨hcalls, unset_calls_run,
    unset_until_tflite_selected find_key_strv unset_calls _ hcalls unset_calls_run⟩

/-- Counterexample to C10 as stated: after `"tflite"` and then the unknown name `"foo"`
the reachable context has a mode other than tflite, yet width and height are 257 and the
label buffer is allocated. -/
theorem unset_invariant_fails :
    ¬ ∀ idata : image_segments, Reachable find_key_strv idata →
      idata.mode ≠ TFLITE_IMAGE_SEGMENT →
      idata.width = 0 ∧ idata.height = 0 ∧ idata.segment_map = none := by
  intro hclaim
  have hfoo : is_setOption find_key_strv tflite_context 0 (some "foo") =
      ({ tflite_context with mode := UNKNOWN_IMAGE_SEGMENT }, true) := by
    simp only [is_setOption, if_true, find_key_strv_foo, reduceCtorEq, Option.some.injEq,
      String.reduceEq, or_self, if_false, ne_eq, not_true_eq_false, and_false]
  have hrun : runFrom find_key_strv is_init.1 tflite_then_foo =
      some { tflite_context with mode := UNKNOWN_IMAGE_SEGMENT } := by
    have h1 : (is_setOption find_key_strv is_init.1 0 (some "tflite")).1 = tflite_context :=
      rfl
    simp only [runFrom, tflite_then_foo, List.foldlM_cons, List.foldlM_nil, step, h1, hfoo]
    rfl
  have h := hclaim _ ⟨tflite_then_foo, hrun⟩ (by decide)
  have hw : tflite_context.width = 257 := by rw [tflite_context_eq]; rfl
  have h0 := h.1
  simp only [hw] at h0
  exact absurd h0 (by decide)

/-! ## The tensor index -/

/-- Reducing every operation of the index expression on its own gives the same index as
reducing the whole expression once. -/
theorem prob_index_wrapping_eq (width i j idx : Nat) :
    prob_index_wrapping width i j idx = prob_index width i j idx := by
  unfold prob_index_wrapping prob_index TOTAL_LABELS
  have h32 : (2 : Nat) ^ 32 = 4294967296 := by norm_num
  rw [h32]
  generalize i * width = x
  omega

/-- Claim C17: with `width = height = 257`, for every row `i < 257`, column `j < 257` and
label `idx < 21`, the tensor index `i * width * 21 + j * 21 + idx` evaluated in 32-bit
arithmetic (every operation reduced on its own, or the whole expression reduced once)
equals the row-major formula `(i * width + j) * 21 + idx`, is strictly below
`height * width * 21`, and distinct triples `(i, j, idx)` give distinct indices. -/
theorem prob_index_row_major (i j idx : Nat) (hi : i < TFLITE_IMAGE_SIZE)
    (hj : j < TFLITE_IMAGE_SIZE) (hidx : idx < TOTAL_LABELS) :
    prob_index_wrapping TFLITE_IMAGE_SIZE i j idx =
      (i * TFLITE_IMAGE_SIZE + j) * TOTAL_LABELS + idx ∧
    prob_index TFLITE_IMAGE_SIZE i j idx = (i * TFLITE_IMAGE_SIZE + j) * TOTAL_LABELS + idx ∧
    prob_index TFLITE_IMAGE_SIZE i j idx <
      TFLITE_IMAGE_SIZE * TFLITE_IMAGE_SIZE * TOTAL_LABELS ∧
    ∀ i' j' idx', i' < TFLITE_IMAGE_SIZE → j' < TFLITE_IMAGE_SIZE → idx' < TOTAL_LABELS →
      prob_index TFLITE_IMAGE_SIZE i j idx = prob_index TFLITE_IMAGE_SIZE i' j' idx' →
      i = i' ∧ j = j' ∧ idx = idx' := by
  have hi' : i < 257 := hi
  have hj' : j < 257 := hj
  have hidx' : idx < 21 := hidx
  have hval : prob_index 257 i j idx = (i * 257 + j) * 21 + idx :=
    prob_index_tflite i j idx hi' hj' hidx
  have hwrapping : prob_index_wrapping 257 i j idx = (i * 257 + j) * 21 + idx := by
    rw [prob_index_wrapping_eq, hval]
  show prob_index_wrapping 257 i j idx = (i * 257 + j) * 21 + idx ∧
    prob_index 257 i j idx = (i * 257 + j) * 21 + idx ∧
    prob_index 257 i j idx < 257 * 257 * 21 ∧
    ∀ i' j' idx', i' < 257 → j' < 257 → idx' < 21 →
      prob_index 257 i j idx = prob_index 257 i' j' idx' → i = i' ∧ j = j' ∧ idx = idx'
  refine ⟨hwrapping, hval, by rw [hval]; omega, ?_⟩
  intro i' j' idx' hi2 hj2 hidx2 heq
  rw [hval, prob_index_tflite i' j' idx' hi2 hj2 hidx2] at heq
  omega

/-- Witness for C17 at the last score of the tensor: row 256, column 256, label 20. -/
theorem prob_index_row_major_witness :
    256 < TFLITE_IMAGE_SIZE ∧ 20 < TOTAL_LABELS ∧
    prob_index_wrapping TFLITE_IMAGE_SIZE 256 256 20 =
      (256 * TFLITE_IMAGE_SIZE + 256) * TOTAL_LABELS + 20 ∧
    prob_index TFLITE_IMAGE_SIZE 256 256 20 =
      (256 * TFLITE_IMAGE_SIZE + 256) * TOTAL_LABELS + 20 ∧
    prob_index TFLITE_IMAGE_SIZE 256 256 20 <
      TFLITE_IMAGE_SIZE * TFLITE_IMAGE_SIZE * TOTAL_LABELS ∧
    ∀ i' j' idx', i' < TFLITE_IMAGE_SIZE → j' < TFLITE_IMAGE_SIZE → idx' < TOTAL_LABELS →
      prob_index TFLITE_IMAGE_SIZE 256 256 20 = prob_index TFLITE_IMAGE_SIZE i' j' idx' →
      256 = i' ∧ 256 = j' ∧ 20 = idx' :=
  ⟨by decide, by decide, prob_index_row_major 256 256 20 (by decide) (by decide) (by decide)⟩

/-! ## Capability description: the claims -/

/-- Claim C14: for every context and every configuration with at least one tensor,
`is_getOutCaps` yields caps with format RGBA, the width and height of the context, and a
framerate exactly when `rate_n >= 0` and `rate_d > 0`, in which case it is
`rate_n / rate_d`; otherwise the caps have no framerate field. -/
theorem is_getOutCaps_descriptor (idata : image_segments) (config : GstTensorsConfig)
    (hnum : config.num_tensors ≥ 1) :
    ∃ caps, is_getOutCaps idata (some config) = some caps ∧
      caps.media_type = "video/x-raw" ∧ caps.format = "RGBA" ∧
      caps.width = idata.width ∧ caps.height = idata.height ∧
      (config.rate_n ≥ 0 ∧ config.rate_d > 0 →
        caps.framerate = some (config.rate_n, config.rate_d)) ∧
      (¬ (config.rate_n ≥ 0 ∧ config.rate_d > 0) → caps.framerate = none) := by
  by_cases hrate : config.rate_n ≥ 0 ∧ config.rate_d > 0
  · refine ⟨{ media_type := "video/x-raw", format := "RGBA", width := idata.width,
              height := idata.height, framerate := some (config.rate_n, config.rate_d) },
      ?_, rfl, rfl, rfl, rfl, fun _ => rfl, fun h => absurd hrate h⟩
    simp only [is_getOutCaps, hnum, hrate, if_true, and_self]
  · refine ⟨{ media_type := "video/x-raw", format := "RGBA", width := idata.width,
              height := idata.height, framerate := none },
      ?_, rfl, rfl, rfl, rfl, fun h => absurd h hrate, fun _ => rfl⟩
    simp only [is_getOutCaps, hnum, hrate, if_true, if_false]

/-- Witness for C14, the scenario of the spec: the tflite context with rate 30/1 gives
width 257, height 257, format RGBA and framerate 30/1. -/
theorem is_getOutCaps_descriptor_witness :
    scenario_config.num_tensors ≥ 1 ∧
    is_getOutCaps tflite_context (some scenario_config) =
      some { media_type := "video/x-raw", format := "RGBA", width := 257, height := 257,
             framerate := some (30, 1) } := by
  refine ⟨by decide, ?_⟩
  obtain ⟨caps, hres, hmt, hfmt, hw, hh, hrate, _⟩ :=
    is_getOutCaps_descriptor tflite_context scenario_config (by decide)
  rw [hres]
  have hfr := hrate (by decide)
  have hw' : caps.width = 257 := by rw [hw, tflite_context_eq]; rfl
  have hh' : caps.height = 257 := by rw [hh, tflite_context_eq]; rfl
  cases caps
  simp only at hmt hfmt hw' hh' hfr
  rw [hmt, hfmt, hw', hh', hfr]
  rfl

/-- Claim C15: for every context, `is_getOutCaps` returns no caps whenever the
configuration is missing or reports `num_tensors = 0`, whatever the frame rate and the
context are. -/
theorem is_getOutCaps_no_tensors (idata : image_segments) (config : Option GstTensorsConfig)
    (hcfg : config = none ∨ ∃ cfg, config = some cfg ∧ cfg.num_tensors = 0) :
    is_getOutCaps idata config = none := by
  rcases hcfg with h | ⟨cfg, h, hnum⟩
  · rw [h]; rfl
  · rw [h]
    have : ¬ (cfg.num_tensors ≥ 1) := by omega
    simp only [is_getOutCaps, this, if_false]

/-- Witness for C15: a configuration with no tensor and rate 30/1 on the tflite
context. -/
theorem is_getOutCaps_no_tensors_witness :
    ((some empty_config : Option GstTensorsConfig) = none ∨
      ∃ cfg, some empty_config = some cfg ∧ cfg.num_tensors = 0) ∧
    is_getOutCaps tflite_context (some empty_config) = none :=
  have hcfg : (some empty_config : Option GstTensorsConfig) = none ∨
      ∃ cfg, some empty_config = some cfg ∧ cfg.num_tensors = 0 :=
    Or.inr ⟨empty_config, rfl, rfl⟩
  ⟨hcfg, is_getOutCaps_no_tensors tflite_context (some empty_config) hcfg⟩

/-! ## What every call keeps -/

/-- A property kept by every successful iteration over an element of the list holds of
whatever the loop returns. -/
theorem foldlM_preserves_mem {σ α : Type} (f : σ → α → Option σ) (P : σ → Prop) :
    ∀ (l : List α), (∀ a, a ∈ l → ∀ st st', P st → f st a = some st' → P st') →
    ∀ (s0 st' : σ), P s0 → l.foldlM f s0 = some st' → P st' := by
  intro l
  induction l with
  | nil =>
    intro _ s0 st' h0 h
    simp at h
    rw [← h]
    exact h0
  | cons a l ih =>
    intro hstep s0 st' h0 h
    rw [List.foldlM_cons] at h
    cases hf : f s0 a with
    | none => rw [hf] at h; simp at h
    | some s1 =>
      rw [hf] at h
      exact ih (fun b hb => hstep b (List.mem_cons_of_mem _ hb)) s1 st'
        (hstep a (List.mem_cons_self _ _) s0 s1 h0 hf) h

/-- Whatever the scan of a pixel returns, its index is a label. -/
theorem max_scan_lt (read : Nat → Option ℚ) (k : Nat) (p : ℚ)
    (h : max_scan read = some (k, p)) : k < TOTAL_LABELS := by
  unfold max_scan at h
  cases h0 : read 0 with
  | none => rw [h0] at h; simp at h
  | some p0 =>
    rw [h0] at h
    simp only at h
    have := foldlM_preserves_mem (max_step read) (fun st => st.1 < TOTAL_LABELS)
      (List.range' 1 (TOTAL_LABELS - 1))
      (by
        intro idx hidx st st' hst hstep
        have hlt : idx < TOTAL_LABELS := by
          have := (List.mem_range'_1.mp hidx).2
          simpa [TOTAL_LABELS] using this
        unfold max_step at hstep
        cases hr : read idx with
        | none => rw [hr] at hstep; simp at hstep
        | some prob =>
          rw [hr] at hstep
          simp only at hstep
          by_cases hgt : prob > st.2
          · rw [if_pos hgt] at hstep
            rw [← Option.some.inj hstep]
            exact hlt
          · rw [if_neg hgt] at hstep
            rw [← Option.some.inj hstep]
            exact hst)
      (0, p0) (k, p) (show (0 : Nat) < TOTAL_LABELS by decide) h
    exact this

/-- A successful store keeps the dimensions and, for a label, the validity of the
cells. -/
theorem write_cell_keeps (m m' : List (List Nat)) (h w i j v : Nat) (hd : HasDims m h w)
    (hv : CellsValid m h w) (hlabel : v < TOTAL_LABELS)
    (hres : write_cell m i j v = some m') : HasDims m' h w ∧ CellsValid m' h w := by
  have hij : i < h ∧ j < w := by
    unfold write_cell at hres
    cases hrow : m[i]? with
    | none => rw [hrow] at hres; simp at hres
    | some row =>
      rw [hrow] at hres
      simp only at hres
      obtain ⟨hi, hget⟩ := List.getElem?_eq_some_iff.mp hrow
      have hmem : row ∈ m := by
        rw [← hget]
        exact List.getElem_mem hi
      have hlen := hd.2 row hmem
      by_cases hj : j < row.length
      · exact ⟨by rw [← hd.1]; exact hi, by rw [← hlen]; exact hj⟩
      · rw [if_neg hj] at hres
        simp at hres
  obtain ⟨m'', hres', hd', hcells⟩ := write_cell_spec m h w i j v hd hij.1 hij.2
  rw [hres] at hres'
  have hmm : m' = m'' := Option.some.inj hres'
  subst hmm
  refine ⟨hd', ?_⟩
  intro a b ha hb
  rw [hcells a b]
  by_cases hab : a = i ∧ b = j
  · rw [if_pos hab]
    exact ⟨v, rfl, hlabel⟩
  · rw [if_neg hab]
    exact hv a b ha hb

/-- A successful classification of one pixel keeps the dimensions and the validity of the
cells, whatever the tensor is. -/
theorem classify_cell_keeps (prob_map : List ℚ) (m m' : List (List Nat)) (h w i j : Nat)
    (hd : HasDims m h w) (hv : CellsValid m h w)
    (hres : classify_cell prob_map w i m j = some m') :
    HasDims m' h w ∧ CellsValid m' h w := by
  unfold classify_cell at hres
  cases hscan : max_scan (pixel_read prob_map w i j) with
  | none => rw [hscan] at hres; simp at hres
  | some kp =>
    obtain ⟨k, p⟩ := kp
    rw [hscan] at hres
    simp only at hres
    by_cases hp : p > DETECTION_THRESHOLD
    · rw [if_pos hp] at hres
      exact write_cell_keeps m m' h w i j k hd hv (max_scan_lt _ k p hscan) hres
    · rw [if_neg hp] at hres
      rw [← Option.some.inj hres]
      exact ⟨hd, hv⟩

/-- The function `set_segment_map`, when it returns, keeps mode and dimensions; an
allocated buffer of the context's dimensions stays one and ends with a label in every
cell, and an unallocated buffer stays unallocated. -/
theorem set_segment_map_keeps (idata idata' : image_segments) (prob_map : List ℚ)
    (hres : set_segment_map idata prob_map = some idata') :
    idata'.mode = idata.mode ∧ idata'.width = idata.width ∧ idata'.height = idata.height ∧
    (idata.segment_map = none → idata'.segment_map = none) ∧
    ∀ m, idata.segment_map = some m → HasDims m idata.height idata.width →
      ∃ m', idata'.segment_map = some m' ∧ HasDims m' idata.height idata.width ∧
        CellsValid m' idata.height idata.width := by
  unfold set_segment_map at hres
  cases hm : idata.segment_map with
  | none =>
    rw [hm] at hres
    simp only at hres
    by_cases hh : idata.height = 0
    · rw [if_pos hh] at hres
      rw [← Option.some.inj hres]
      exact ⟨rfl, rfl, rfl, fun _ => hm, fun m hm' => absurd hm' (by simp)⟩
    · rw [if_neg hh] at hres
      simp at hres
  | some m0 =>
    rw [hm] at hres
    simp only at hres
    cases h1 : (List.range idata.height).foldlM (clear_row idata.width) m0 with
    | none => rw [h1] at hres; simp at hres
    | some m1 =>
      rw [h1] at hres
      simp only at hres
      cases h2 : (List.range idata.height).foldlM (classify_row prob_map idata.width) m1 with
      | none => rw [h2] at hres; simp at hres
      | some m2 =>
        rw [h2] at hres
        simp only at hres
        rw [← Option.some.inj hres]
        refine ⟨rfl, rfl, rfl, fun h => by simp at h, ?_⟩
        intro m hmm hd
        have hm0 : m0 = m := Option.some.inj hmm
        subst hm0
        obtain ⟨m1', h1', hd1, hz1⟩ := clear_rows_spec m0 idata.height idata.width hd
        rw [h1] at h1'
        have hm1 : m1 = m1' := Option.some.inj h1'
        subst hm1
        have hv1 : CellsValid m1 idata.height idata.width :=
          fun a b ha hb => ⟨0, hz1 a b ha hb, by decide⟩
        have hkeep := foldlM_preserves (classify_row prob_map idata.width)
          (fun st => HasDims st idata.height idata.width ∧
            CellsValid st idata.height idata.width)
          (by
            intro i st st' hst hrow
            exact foldlM_preserves (classify_cell prob_map idata.width i)
              (fun st => HasDims st idata.height idata.width ∧
                CellsValid st idata.height idata.width)
              (fun j s1 s2 hs hcell =>
                classify_cell_keeps prob_map s1 s2 idata.height idata.width i j hs.1 hs.2
                  hcell)
              (List.range idata.width) st st' hst hrow)
          (List.range idata.height) m1 m2 ⟨hd1, hv1⟩ h2
        exact ⟨m2, rfl, hkeep.1, hkeep.2⟩

/-- The parts of a successful `is_decode`: the context after the call is the classified
one in tflite mode and the given one otherwise, and the return value is `GST_FLOW_OK`. -/
theorem is_decode_some (idata idata' : image_segments) (config : GstTensorsConfig)
    (input : List ℚ) (outbuf frame : List Nat) (r : GstFlowReturn)
    (hres : is_decode idata config input outbuf = some (idata', frame, r)) :
    (idata.mode = TFLITE_IMAGE_SEGMENT → set_segment_map idata input = some idata') ∧
    (idata.mode ≠ TFLITE_IMAGE_SEGMENT → idata' = idata) ∧
    r = GstFlowReturn.GST_FLOW_OK ∧
    setColorAccourdingToLabel idata'
      (memset_words
        (if gst_buffer_get_size outbuf = 0 then
          gst_allocator_alloc ((idata.width * idata.height * 4) % 2 ^ 32)
        else if gst_buffer_get_size outbuf < (idata.width * idata.height * 4) % 2 ^ 32 then
          gst_buffer_set_size outbuf ((idata.width * idata.height * 4) % 2 ^ 32)
        else outbuf)
        ((idata.width * idata.height * 4) % 2 ^ 32)) = some frame := by
  unfold is_decode at hres
  simp only at hres
  by_cases hmode : idata.mode = TFLITE_IMAGE_SEGMENT
  · rw [if_pos hmode] at hres
    by_cases hcfg : config.type = tensor_type._NNS_FLOAT32 ∧ config.dimension0 = TOTAL_LABELS
    · rw [if_pos hcfg] at hres
      cases hset : set_segment_map idata input with
      | none => rw [hset] at hres; simp at hres
      | some idata1 =>
        rw [hset] at hres
        simp only at hres
        cases hcol : setColorAccourdingToLabel idata1 (memset_words
            (if gst_buffer_get_size outbuf = 0 then
              gst_allocator_alloc ((idata.width * idata.height * 4) % 2 ^ 32)
            else if gst_buffer_get_size outbuf < (idata.width * idata.height * 4) % 2 ^ 32
              then gst_buffer_set_size outbuf ((idata.width * idata.height * 4) % 2 ^ 32)
            else outbuf)
            ((idata.width * idata.height * 4) % 2 ^ 32)) with
        | none => rw [hcol] at hres; simp at hres
        | some fr =>
          rw [hcol] at hres
          simp only [Option.some.injEq, Prod.mk.injEq] at hres
          obtain ⟨h1, h2, h3⟩ := hres
          subst h1; subst h2
          exact ⟨fun _ => rfl, fun h => absurd hmode h, by cases r; rfl, hcol⟩
    · rw [if_neg hcfg] at hres
      simp at hres
  · rw [if_neg hmode] at hres
    simp only at hres
    cases hcol : setColorAccourdingToLabel idata (memset_words
        (if gst_buffer_get_size outbuf = 0 then
          gst_allocator_alloc ((idata.width * idata.height * 4) % 2 ^ 32)
        else if gst_buffer_get_size outbuf < (idata.width * idata.height * 4) % 2 ^ 32
          then gst_buffer_set_size outbuf ((idata.width * idata.height * 4) % 2 ^ 32)
        else outbuf)
        ((idata.width * idata.height * 4) % 2 ^ 32)) with
    | none => rw [hcol] at hres; simp at hres
    | some fr =>
      rw [hcol] at hres
      simp only [Option.some.injEq, Prod.mk.injEq] at hres
      obtain ⟨h1, h2, h3⟩ := hres
      subst h1; subst h2
      exact ⟨fun h => absurd h hmode, fun _ => rfl, by cases r; rfl, hcol⟩

/-- The function `is_setOption` keeps a context well formed, whatever the lookup
returns. -/
theorem is_setOption_keeps_wf (find_key : List String → Option String → Int)
    (idata : image_segments) (opNum : Int) (param : Option String)
    (hwf : WellFormed idata) : WellFormed (is_setOption find_key idata opNum param).1 := by
  have hfresh : ∀ x : Int, WellFormed
      { mode := x, width := TFLITE_IMAGE_SIZE, height := TFLITE_IMAGE_SIZE,
        segment_map :=
          some (List.replicate TFLITE_IMAGE_SIZE (List.replicate TFLITE_IMAGE_SIZE 0)) } :=
    fun x => Or.inr ⟨rfl, rfl, _, rfl, HasDims_replicate _ _ 0,
      CellsValid_replicate _ _ 0 (by decide)⟩
  have hmode : ∀ x : Int, WellFormed { idata with mode := x } := fun _ => hwf
  unfold is_setOption
  by_cases hop : opNum = 0
  · rw [if_pos hop]
    simp only
    by_cases hparam : param = none ∨ param = some ""
    · rw [if_pos hparam]
      exact hmode _
    · rw [if_neg hparam]
      by_cases hinit : find_key is_modes param ≠ idata.mode ∧
          find_key is_modes param ≠ UNKNOWN_IMAGE_SEGMENT
      · rw [if_pos hinit]
        unfold _init_modes
        by_cases htf : find_key is_modes param = TFLITE_IMAGE_SEGMENT
        · rw [if_pos htf]
          exact hfresh _
        · rw [if_neg htf]
          exact hmode _
      · rw [if_neg hinit]
        exact hmode _
  · rw [if_neg hop]
    exact hwf

/-- The function `is_decode`, when it returns, keeps a context well formed, whatever the
configuration, the tensor and the output buffer are. -/
theorem is_decode_keeps_wf (idata idata' : image_segments) (config : GstTensorsConfig)
    (input : List ℚ) (outbuf frame : List Nat) (r : GstFlowReturn)
    (hwf : WellFormed idata)
    (hres : is_decode idata config input outbuf = some (idata', frame, r)) :
    WellFormed idata' := by
  obtain ⟨hset, hskip, _, _⟩ := is_decode_some idata idata' config input outbuf frame r hres
  by_cases hmode : idata.mode = TFLITE_IMAGE_SEGMENT
  · obtain ⟨_, hw, hh, hnone, hsome⟩ :=
      set_segment_map_keeps idata idata' input (hset hmode)
    rcases hwf with ⟨hw0, hh0, hm0⟩ | ⟨hw1, hh1, m, hm, hd, _⟩
    · exact Or.inl ⟨by rw [hw, hw0], by rw [hh, hh0], hnone hm0⟩
    · obtain ⟨m', hm', hd', hv'⟩ := hsome m hm (by rw [hh1, hw1]; exact hd)
      rw [hh1, hw1] at hd' hv'
      exact Or.inr ⟨by rw [hw, hw1], by rw [hh, hh1], m', hm', hd', hv'⟩
  · rw [hskip hmode]
    exact hwf

/-- Every call keeps a context well formed. -/
theorem step_keeps_wf (find_key : List String → Option String → Int)
    (idata idata' : image_segments) (call : Call) (hwf : WellFormed idata)
    (hstep : step find_key idata call = some idata') : WellFormed idata' := by
  cases call with
  | setOption opNum param =>
    simp only [step, Option.some.injEq] at hstep
    rw [← hstep]
    exact is_setOption_keeps_wf find_key idata opNum param hwf
  | decode config input outbuf =>
    cases hdec : is_decode idata config input outbuf with
    | none => simp [step, hdec] at hstep
    | some res =>
      obtain ⟨s1, fr, r⟩ := res
      simp only [step, hdec, Option.some.injEq] at hstep
      rw [← hstep]
      exact is_decode_keeps_wf idata s1 config input outbuf fr r hwf hdec

/-- Every reachable context is well formed. -/
theorem reachable_wf (find_key : List String → Option String → Int)
    (idata : image_segments) (hreach : Reachable find_key idata) : WellFormed idata := by
  obtain ⟨calls, hrun⟩ := hreach
  exact foldlM_preserves (step find_key) WellFormed
    (fun call st st' hst hstep => step_keeps_wf find_key st st' call hst hstep)
    calls is_init.1 idata (Or.inl ⟨rfl, rfl, rfl⟩) hrun

/-- The context after selecting `"tflite"` is reachable. -/
theorem tflite_context_reachable : Reachable find_key_strv tflite_context :=
  ⟨select_calls, rfl⟩

/-- Claim C11: in every state reachable from `is_init` by any sequence of `is_setOption`
and `is_decode` calls, every cell of the label buffer holds a value in `[0, 21)`, so the
palette lookup `labelColor[segment_map[i][j]]` of the renderer is in bounds. -/
theorem reachable_labels_in_range (find_key : List String → Option String → Int)
    (idata : image_segments) (m : List (List Nat))
    (hreach : Reachable find_key idata) (hm : idata.segment_map = some m) :
    (∀ row, row ∈ m → ∀ l, l ∈ row → l < TOTAL_LABELS) ∧
    ∀ i j, i < idata.height → j < idata.width →
      ∃ l c, cell m i j = some l ∧ l < TOTAL_LABELS ∧ labelColor[l]? = some c := by
  rcases reachable_wf find_key idata hreach with ⟨_, _, hnone⟩ | ⟨hw, hh, m', hm', hd, hv⟩
  · rw [hnone] at hm
    exact absurd hm (by simp)
  · rw [hm] at hm'
    have hmm : m = m' := Option.some.inj hm'
    subst hmm
    constructor
    · intro row hrow l hl
      obtain ⟨i, hi, hrowi⟩ := List.getElem_of_mem hrow
      obtain ⟨j, hj, hlj⟩ := List.getElem_of_mem hl
      have hcell : cell m i j = some l := by
        unfold cell
        rw [List.getElem?_eq_getElem hi, hrowi]
        simp only
        rw [List.getElem?_eq_getElem hj, hlj]
      obtain ⟨l', hl', hlt⟩ := hv i j (by rw [← hd.1]; exact hi)
        (by rw [← hd.2 row hrow]; exact hj)
      rw [hcell] at hl'
      rw [Option.some.inj hl']
      exact hlt
    · intro i j hi hj
      obtain ⟨l, hl, hlt⟩ := hv i j (by rw [← hh]; exact hi) (by rw [← hw]; exact hj)
      have hlt' : l < labelColor.length := hlt
      exact ⟨l, labelColor[l], hl, hlt, List.getElem?_eq_getElem hlt'⟩

/-- Witness for C11 on the context reached by selecting `"tflite"`. -/
theorem reachable_labels_in_range_witness :
    Reachable find_key_strv tflite_context ∧
    tflite_context.segment_map =
      some (List.replicate TFLITE_IMAGE_SIZE (List.replicate TFLITE_IMAGE_SIZE 0)) ∧
    (∀ row, row ∈ List.replicate TFLITE_IMAGE_SIZE (List.replicate TFLITE_IMAGE_SIZE 0) →
      ∀ l, l ∈ row → l < TOTAL_LABELS) ∧
    ∀ i j, i < tflite_context.height → j < tflite_context.width →
      ∃ l c, cell (List.replicate TFLITE_IMAGE_SIZE (List.replicate TFLITE_IMAGE_SIZE 0)) i j
          = some l ∧ l < TOTAL_LABELS ∧ labelColor[l]? = some c :=
  have hm : tflite_context.segment_map =
      some (List.replicate TFLITE_IMAGE_SIZE (List.replicate TFLITE_IMAGE_SIZE 0)) := by
    rw [tflite_context_eq]
  ⟨tflite_context_reachable, hm,
    reachable_labels_in_range find_key_strv tflite_context _ tflite_context_reachable hm⟩

/-- Claim C12: in every state reachable from `is_init` by any sequence of `is_setOption`
and `is_decode` calls, the label buffer has exactly `height` rows, each of exactly
`width` cells (an unallocated buffer goes with width = height = 0), so every
`segment_map[i][j]` with `i < height` and `j < width` exists. -/
theorem reachable_buffer_dims (find_key : List String → Option String → Int)
    (idata : image_segments) (hreach : Reachable find_key idata) :
    (idata.segment_map = none → idata.width = 0 ∧ idata.height = 0) ∧
    ∀ m, idata.segment_map = some m →
      m.length = idata.height ∧ (∀ row, row ∈ m → row.length = idata.width) ∧
      ∀ i j, i < idata.height → j < idata.width → ∃ l, cell m i j = some l := by
  rcases reachable_wf find_key idata hreach with ⟨hw, hh, hnone⟩ | ⟨hw, hh, m', hm', hd, hv⟩
  · refine ⟨fun _ => ⟨hw, hh⟩, ?_⟩
    intro m hm
    rw [hnone] at hm
    exact absurd hm (by simp)
  · refine ⟨fun h => by rw [hm'] at h; exact absurd h (by simp), ?_⟩
    intro m hm
    rw [hm] at hm'
    have hmm : m = m' := Option.some.inj hm'
    subst hmm
    rw [hw, hh]
    refine ⟨hd.1, hd.2, ?_⟩
    intro i j hi hj
    obtain ⟨l, hl, _⟩ := hv i j hi hj
    exact ⟨l, hl⟩

/-- Witness for C12 on the context reached by selecting `"tflite"`: its buffer is
allocated, with 257 rows of 257 cells. -/
theorem reachable_buffer_dims_witness :
    Reachable find_key_strv tflite_context ∧
    tflite_context.segment_map =
      some (List.replicate TFLITE_IMAGE_SIZE (List.replicate TFLITE_IMAGE_SIZE 0)) ∧
    tflite_context.height = 257 ∧ tflite_context.width = 257 ∧
    (List.replicate TFLITE_IMAGE_SIZE (List.replicate TFLITE_IMAGE_SIZE 0)).length =
      tflite_context.height ∧
    (∀ row, row ∈ List.replicate TFLITE_IMAGE_SIZE (List.replicate TFLITE_IMAGE_SIZE 0) →
      row.length = tflite_context.width) ∧
    ∀ i j, i < tflite_context.height → j < tflite_context.width →
      ∃ l, cell (List.replicate TFLITE_IMAGE_SIZE (List.replicate TFLITE_IMAGE_SIZE 0)) i j
        = some l :=
  have hm : tflite_context.segment_map =
      some (List.replicate TFLITE_IMAGE_SIZE (List.replicate TFLITE_IMAGE_SIZE 0)) := by
    rw [tflite_context_eq]
  have hh : tflite_context.height = 257 := by rw [tflite_context_eq]; rfl
  have hw : tflite_context.width = 257 := by rw [tflite_context_eq]; rfl
  ⟨tflite_context_reachable, hm, hh, hw,
    (reachable_buffer_dims find_key_strv tflite_context tflite_context_reachable).2 _ hm⟩

/-! ## Independence from the previous frame -/

/-- Two buffers of the same dimensions with the same cells are equal. -/
theorem HasDims_ext (m m' : List (List Nat)) (h w : Nat) (hd : HasDims m h w)
    (hd' : HasDims m' h w)
    (hcells : ∀ a b, a < h → b < w → cell m a b = cell m' a b) : m = m' := by
  apply List.ext_getElem?
  intro a
  by_cases ha : a < h
  · obtain ⟨row, hrow, hlen⟩ := hd.row_length ha
    obtain ⟨row', hrow', hlen'⟩ := hd'.row_length ha
    rw [hrow, hrow']
    congr 1
    apply List.ext_getElem?
    intro b
    by_cases hb : b < w
    · have := hcells a b ha hb
      unfold cell at this
      rw [hrow, hrow'] at this
      exact this
    · rw [List.getElem?_eq_none (by rw [hlen]; omega),
        List.getElem?_eq_none (by rw [hlen']; omega)]
  · rw [List.getElem?_eq_none (by rw [hd.1]; omega),
      List.getElem?_eq_none (by rw [hd'.1]; omega)]

/-- The first loop of `set_segment_map` turns every buffer of the given dimensions into
the same all-zero buffer. -/
theorem clear_rows_eq (m : List (List Nat)) (h w : Nat) (hd : HasDims m h w) :
    (List.range h).foldlM (clear_row w) m = some (List.replicate h (List.replicate w 0)) := by
  obtain ⟨m1, h1, hd1, hz1⟩ := clear_rows_spec m h w hd
  rw [h1]
  congr 1
  apply HasDims_ext m1 _ h w hd1 (HasDims_replicate h w 0)
  intro a b ha hb
  rw [hz1 a b ha hb, cell_replicate h w 0 a b ha hb]

/-- Claim C13: for any two contexts with the same width and height and arbitrary prior
label buffers of those dimensions, classifying the same tensor gives the same outcome and
the same label buffer; with a tensor of the contracted length both calls return. -/
theorem set_segment_map_ignores_previous (idata1 idata2 : image_segments)
    (prob_map : List ℚ) (m1 m2 : List (List Nat))
    (hw : idata1.width = idata2.width) (hh : idata1.height = idata2.height)
    (hm1 : idata1.segment_map = some m1) (hm2 : idata2.segment_map = some m2)
    (hd1 : HasDims m1 idata1.height idata1.width)
    (hd2 : HasDims m2 idata2.height idata2.width) :
    (set_segment_map idata1 prob_map).map (fun s => s.segment_map) =
      (set_segment_map idata2 prob_map).map (fun s => s.segment_map) ∧
    (prob_map.length = idata1.height * idata1.width * TOTAL_LABELS →
      ∃ m', set_segment_map idata1 prob_map = some { idata1 with segment_map := some m' } ∧
        set_segment_map idata2 prob_map = some { idata2 with segment_map := some m' }) := by
  have hmap : (set_segment_map idata1 prob_map).map (fun s => s.segment_map) =
      (set_segment_map idata2 prob_map).map (fun s => s.segment_map) := by
    unfold set_segment_map
    rw [hm1, hm2]
    simp only
    rw [clear_rows_eq m1 _ _ hd1, clear_rows_eq m2 _ _ hd2, ← hw, ← hh]
    simp only
    cases (List.range idata1.height).foldlM (classify_row prob_map idata1.width)
        (List.replicate idata1.height (List.replicate idata1.width 0)) with
    | none => rfl
    | some m' => rfl
  refine ⟨hmap, ?_⟩
  intro hlen
  obtain ⟨ma, hresa, _, _⟩ := set_segment_map_spec idata1 prob_map m1 hm1 hd1 hlen
  obtain ⟨mb, hresb, _, _⟩ := set_segment_map_spec idata2 prob_map m2 hm2 hd2
    (by rw [← hh, ← hw]; exact hlen)
  rw [hresa, hresb] at hmap
  simp only [Option.map_some', Option.some.injEq] at hmap
  rw [← hmap] at hresb
  exact ⟨ma, hresa, hresb⟩

/-- Witness for C13: the two two-by-two contexts with different stale labels and the
tensor of `small_tensor`. -/
theorem set_segment_map_ignores_previous_witness :
    HasDims [[7, 7], [7, 7]] small_context.height small_context.width ∧
    HasDims [[1, 2], [3, 4]] other_context.height other_context.width ∧
    small_tensor.length = small_context.height * small_context.width * TOTAL_LABELS ∧
    (set_segment_map small_context small_tensor).map (fun s => s.segment_map) =
      (set_segment_map other_context small_tensor).map (fun s => s.segment_map) ∧
    ∃ m', set_segment_map small_context small_tensor =
        some { small_context with segment_map := some m' } ∧
      set_segment_map other_context small_tensor =
        some { other_context with segment_map := some m' } :=
  have hd1 : HasDims [[7, 7], [7, 7]] small_context.height small_context.width := by
    simp [HasDims, small_context]
  have hd2 : HasDims [[1, 2], [3, 4]] other_context.height other_context.width := by
    simp [HasDims, other_context]
  have hlen : small_tensor.length =
      small_context.height * small_context.width * TOTAL_LABELS := by
    simp [small_tensor, small_context, TOTAL_LABELS]
  have h := set_segment_map_ignores_previous small_context other_context small_tensor
    [[7, 7], [7, 7]] [[1, 2], [3, 4]] rfl rfl rfl rfl hd1 hd2
  ⟨hd1, hd2, hlen, h.1, h.2 hlen⟩

/-! ## Overwriting the label buffer -/

/-- The calls of `tflite_then_foo` run to `foo_context`. -/
theorem tflite_then_foo_run :
    runFrom find_key_strv is_init.1 tflite_then_foo = some foo_context := by
  have hfoo : is_setOption find_key_strv tflite_context 0 (some "foo") =
      ({ tflite_context with mode := UNKNOWN_IMAGE_SEGMENT }, true) := by
    simp only [is_setOption, if_true, find_key_strv_foo, reduceCtorEq, Option.some.injEq,
      String.reduceEq, or_self, if_false, ne_eq, not_true_eq_false, and_false]
  have h1 : (is_setOption find_key_strv is_init.1 0 (some "tflite")).1 = tflite_context :=
    rfl
  simp only [runFrom, tflite_then_foo, List.foldlM_cons, List.foldlM_nil, step, h1, hfoo]
  rfl

/-- The context `foo_context` spelled out. -/
theorem foo_context_eq :
    foo_context =
      { mode := UNKNOWN_IMAGE_SEGMENT, width := TFLITE_IMAGE_SIZE,
        height := TFLITE_IMAGE_SIZE,
        segment_map :=
          some (List.replicate TFLITE_IMAGE_SIZE (List.replicate TFLITE_IMAGE_SIZE 0)) } := by
  unfold foo_context
  rw [tflite_context_eq]

/-- In the scenario tensor the lowest-index maximum of pixel `(0, 0)` is label 5 with
score 0.9. -/
theorem scenario_origin_best :
    LowestMax (fun idx => scenario_tensor.getD ((0 * 257 + 0) * 21 + idx) 0) 5 score_0_9 := by
  have hpos : (0 : ℚ) < score_0_9 := by norm_num [score_0_9]
  have hscore : ∀ idx, idx < TOTAL_LABELS →
      scenario_tensor.getD ((0 * 257 + 0) * 21 + idx) 0 =
        if idx = 5 then score_0_9 else 0 := by
    intro idx hidx
    have h21 : idx < 21 := hidx
    rw [scenario_tensor_getD _ (by omega)]
    have : ((0 * 257 + 0) * 21 + idx = 5) ↔ idx = 5 := by omega
    simp only [this]
  refine ⟨by decide, ?_, ?_, ?_⟩
  · show scenario_tensor.getD ((0 * 257 + 0) * 21 + 5) 0 = score_0_9
    rw [hscore 5 (by decide), if_pos rfl]
  · intro idx hidx
    show scenario_tensor.getD ((0 * 257 + 0) * 21 + idx) 0 ≤ score_0_9
    rw [hscore idx hidx]
    by_cases h5 : idx = 5
    · rw [if_pos h5]
    · rw [if_neg h5]; exact le_of_lt hpos
  · intro idx hidx
    show scenario_tensor.getD ((0 * 257 + 0) * 21 + idx) 0 < score_0_9
    have h5 : idx ≠ 5 := by omega
    rw [hscore idx (lt_trans hidx (by decide)), if_neg h5]
    exact hpos

/-- Claim C18, as amended: for every state reachable from `is_init` by `is_setOption` and
`is_decode` calls whose mode is tflite, every float32 configuration with 21 labels and
every input tensor of length `height * width * 21`, `is_decode` returns and afterwards
every cell of the label buffer equals the classification of the current tensor (the
lowest-index maximum label when its score exceeds 0.5, else 0), whatever the buffer held
before the call. -/
theorem is_decode_overwrites_labels (find_key : List String → Option String → Int)
    (idata : image_segments) (config : GstTensorsConfig) (input : List ℚ)
    (outbuf : List Nat) (hreach : Reachable find_key idata)
    (hmode : idata.mode = TFLITE_IMAGE_SEGMENT)
    (htype : config.type = tensor_type._NNS_FLOAT32)
    (hdim : config.dimension0 = TOTAL_LABELS)
    (hlen : input.length = idata.height * idata.width * TOTAL_LABELS) :
    ∃ idata' frame, is_decode idata config input outbuf =
        some (idata', frame, GstFlowReturn.GST_FLOW_OK) ∧
      idata'.mode = idata.mode ∧ idata'.width = idata.width ∧
      idata'.height = idata.height ∧
      (idata.segment_map = none → idata'.segment_map = none) ∧
      ∀ m, idata.segment_map = some m →
        ∃ m', idata'.segment_map = some m' ∧ HasDims m' idata.height idata.width ∧
          ∀ i j, i < idata.height → j < idata.width →
            ∃ k p, LowestMax
                (fun idx => input.getD ((i * idata.width + j) * TOTAL_LABELS + idx) 0) k p ∧
              cell m' i j = some (if p > DETECTION_THRESHOLD then k else 0) := by
  rcases reachable_wf find_key idata hreach with ⟨hw, hh, hnone⟩ | ⟨hw, hh, m, hm, hd, _⟩
  · refine ⟨idata, memset_words
        (if gst_buffer_get_size outbuf = 0 then
          gst_allocator_alloc ((idata.width * idata.height * 4) % 2 ^ 32)
        else if gst_buffer_get_size outbuf < (idata.width * idata.height * 4) % 2 ^ 32 then
          gst_buffer_set_size outbuf ((idata.width * idata.height * 4) % 2 ^ 32)
        else outbuf)
        ((idata.width * idata.height * 4) % 2 ^ 32), ?_, rfl, rfl, rfl, fun h => h, ?_⟩
    · simp only [is_decode, hmode, htype, hdim, if_true, and_self, set_segment_map, hnone, hh,
        setColorAccourdingToLabel, true_or]
    · intro m hm
      rw [hnone] at hm
      exact absurd hm (by simp)
  · have hw' : idata.width = 257 := hw
    have hh' : idata.height = 257 := hh
    have hlen' : input.length = 257 * 257 * 21 := by
      rw [hlen, hh', hw']
      rfl
    obtain ⟨m', frame, hres, hdm', hcells, _⟩ :=
      is_decode_tflite_spec idata config input outbuf m hmode hw' hh' hm hd htype hdim hlen'
    refine ⟨_, frame, hres, rfl, rfl, rfl, fun h => by rw [hm] at h; exact absurd h (by simp),
      ?_⟩
    intro m0 _
    refine ⟨m', rfl, by rw [hh', hw']; exact hdm', ?_⟩
    rw [hh', hw']
    intro i j hi hj
    have hlen257 : input.length = 257 * 257 * TOTAL_LABELS := by rw [hlen']; rfl
    obtain ⟨k, p, _, hlm, hlabel⟩ := pixel_scan_spec input 257 257 i j hlen257 hi hj
    refine ⟨k, p, ?_, by rw [hcells i j hi hj, hlabel]⟩
    apply LowestMax_congr _ _ k p _ hlm
    intro idx hidx
    show input.getD (prob_index 257 i j idx) 0 =
      input.getD ((i * 257 + j) * TOTAL_LABELS + idx) 0
    rw [prob_index_tflite i j idx hi hj hidx]
    rfl

/-- Witness for C18 as amended: the tflite context, reached by selecting `"tflite"`, and
the scenario tensor. -/
theorem is_decode_overwrites_labels_witness :
    Reachable find_key_strv tflite_context ∧
    tflite_context.mode = TFLITE_IMAGE_SEGMENT ∧
    scenario_tensor.length =
      tflite_context.height * tflite_context.width * TOTAL_LABELS ∧
    ∃ idata' frame, is_decode tflite_context scenario_config scenario_tensor [] =
        some (idata', frame, GstFlowReturn.GST_FLOW_OK) ∧
      idata'.mode = tflite_context.mode ∧ idata'.width = tflite_context.width ∧
      idata'.height = tflite_context.height ∧
      (tflite_context.segment_map = none → idata'.segment_map = none) ∧
      ∀ m, tflite_context.segment_map = some m →
        ∃ m', idata'.segment_map = some m' ∧
          HasDims m' tflite_context.height tflite_context.width ∧
          ∀ i j, i < tflite_context.height → j < tflite_context.width →
            ∃ k p, LowestMax
                (fun idx =>
                  scenario_tensor.getD ((i * tflite_context.width + j) * TOTAL_LABELS + idx) 0)
                k p ∧
              cell m' i j = some (if p > DETECTION_THRESHOLD then k else 0) :=
  have hmode : tflite_context.mode = TFLITE_IMAGE_SEGMENT := by rw [tflite_context_eq]
  have hlen : scenario_tensor.length =
      tflite_context.height * tflite_context.width * TOTAL_LABELS := by
    rw [scenario_tensor_length, tflite_context_eq]
    rfl
  ⟨tflite_context_reachable, hmode, hlen,
    is_decode_overwrites_labels find_key_strv tflite_context scenario_config scenario_tensor
      [] tflite_context_reachable hmode rfl rfl hlen⟩

/-- Counterexample to C18 as stated: `foo_context` is reachable, its mode is not tflite,
and `is_decode` on the scenario tensor leaves its all-zero label buffer as it is, while
the classification of pixel `(0, 0)` is label 5. -/
theorem is_decode_keeps_stale_labels :
    ¬ ∀ (idata : image_segments) (config : GstTensorsConfig) (input : List ℚ)
        (outbuf : List Nat) (m : List (List Nat)),
      Reachable find_key_strv idata → idata.segment_map = some m →
      config.type = tensor_type._NNS_FLOAT32 → config.dimension0 = TOTAL_LABELS →
      input.length = idata.height * idata.width * TOTAL_LABELS →
      ∃ idata' frame m', is_decode idata config input outbuf =
          some (idata', frame, GstFlowReturn.GST_FLOW_OK) ∧
        idata'.segment_map = some m' ∧
        ∀ i j, i < idata.height → j < idata.width →
          ∃ k p, LowestMax
              (fun idx => input.getD ((i * idata.width + j) * TOTAL_LABELS + idx) 0) k p ∧
            cell m' i j = some (if p > DETECTION_THRESHOLD then k else 0) := by
  intro hclaim
  have hw : foo_context.width = 257 := by rw [foo_context_eq]; rfl
  have hh : foo_context.height = 257 := by rw [foo_context_eq]; rfl
  have hmap : foo_context.segment_map = some (List.replicate 257 (List.replicate 257 0)) := by
    rw [foo_context_eq]; rfl
  have hmode : foo_context.mode ≠ TFLITE_IMAGE_SEGMENT := by
    rw [foo_context_eq]; decide
  have hlen : scenario_tensor.length =
      foo_context.height * foo_context.width * TOTAL_LABELS := by
    rw [scenario_tensor_length, hh, hw]
    rfl
  obtain ⟨idata', frame, m', hdec, hm', hcells⟩ := hclaim foo_context scenario_config
    scenario_tensor [] _ ⟨tflite_then_foo, tflite_then_foo_run⟩ hmap rfl rfl hlen
  obtain ⟨_, hskip, _, _⟩ :=
    is_decode_some foo_context idata' scenario_config scenario_tensor [] frame _ hdec
  rw [hskip hmode, hmap] at hm'
  have hmm : m' = List.replicate 257 (List.replicate 257 0) := (Option.some.inj hm').symm
  obtain ⟨k, p, hlm, hcell⟩ := hcells 0 0 (by rw [hh]; decide) (by rw [hw]; decide)
  rw [hmm, cell_replicate 257 257 0 0 0 (by decide) (by decide)] at hcell
  simp only [hw] at hlm
  obtain ⟨hk, hp⟩ := LowestMax_unique _ k 5 p score_0_9 hlm scenario_origin_best
  have hthr : score_0_9 > DETECTION_THRESHOLD := by
    norm_num [score_0_9, DETECTION_THRESHOLD]
  rw [hk, hp, if_pos hthr] at hcell
  exact absurd (Option.some.inj hcell) (by decide)

/-! ## The size of the output buffer -/

/-- A successful store of the renderer keeps the length of the buffer. -/
theorem color_cell_length (m : List (List Nat)) (w i j : Nat) (frame f' : List Nat)
    (h : color_cell m w i frame j = some f') : f'.length = frame.length := by
  unfold color_cell at h
  cases hrow : m[i]? with
  | none => rw [hrow] at h; simp at h
  | some row =>
    rw [hrow] at h
    simp only at h
    cases hl : row[j]? with
    | none => rw [hl] at h; simp at h
    | some l =>
      rw [hl] at h
      simp only at h
      cases hc : labelColor[l]? with
      | none => rw [hc] at h; simp at h
      | some c =>
        rw [hc] at h
        simp only at h
        by_cases hpos : frame_index w i j < frame.length
        · rw [if_pos hpos] at h
          rw [← Option.some.inj h, List.length_set]
        · rw [if_neg hpos] at h
          simp at h

/-- The renderer, when it returns, keeps the length of the buffer. -/
theorem setColor_length (idata : image_segments) (frame f' : List Nat)
    (h : setColorAccourdingToLabel idata frame = some f') : f'.length = frame.length := by
  unfold setColorAccourdingToLabel at h
  cases hm : idata.segment_map with
  | none =>
    rw [hm] at h
    simp only at h
    by_cases hz : idata.height = 0 ∨ idata.width = 0
    · rw [if_pos hz] at h
      rw [← Option.some.inj h]
    · rw [if_neg hz] at h
      simp at h
  | some m =>
    rw [hm] at h
    simp only at h
    exact foldlM_preserves (color_row m idata.width) (fun st => st.length = frame.length)
      (fun i st st' hst hrow => by
        have := foldlM_preserves (color_cell m idata.width i)
          (fun s => s.length = frame.length)
          (fun j s1 s2 hs hcell => by
            show s2.length = frame.length
            rw [color_cell_length m idata.width i j s1 s2 hcell]
            exact hs)
          (List.range idata.width) st st' hst hrow
        exact this)
      (List.range idata.height) frame f' rfl h

/-- The memory `is_decode` maps and clears has the incoming number of words or the
number of words of `size` bytes, whichever is larger. -/
theorem decode_memory_length (outbuf : List Nat) (size : Nat) :
    (memset_words
      (if gst_buffer_get_size outbuf = 0 then gst_allocator_alloc size
       else if gst_buffer_get_size outbuf < size then gst_buffer_set_size outbuf size
       else outbuf) size).length = max outbuf.length (size / 4) := by
  unfold memset_words gst_buffer_get_size gst_allocator_alloc gst_buffer_set_size
  by_cases h0 : 4 * outbuf.length = 0
  · rw [if_pos h0]
    simp only [List.length_append, List.length_replicate, List.length_drop]
    omega
  · rw [if_neg h0]
    by_cases hlt : 4 * outbuf.length < size
    · rw [if_pos hlt]
      simp only [List.length_append, List.length_replicate, List.length_drop,
        List.length_take]
      omega
    · rw [if_neg hlt]
      simp only [List.length_append, List.length_replicate, List.length_drop]
      omega

/-- The size in bytes of a buffer of `n` equal words. -/
theorem gst_buffer_get_size_replicate (n v : Nat) :
    gst_buffer_get_size (List.replicate n v) = 4 * n := by
  unfold gst_buffer_get_size
  rw [List.length_replicate]

/-- Whenever `is_decode` returns, the output buffer has the incoming size or
`width * height * 4` bytes (as `unsigned int`), whichever is larger. -/
theorem is_decode_size (idata idata' : image_segments) (config : GstTensorsConfig)
    (input : List ℚ) (outbuf frame : List Nat) (r : GstFlowReturn)
    (hres : is_decode idata config input outbuf = some (idata', frame, r)) :
    gst_buffer_get_size frame =
      max (gst_buffer_get_size outbuf) ((idata.width * idata.height * 4) % 2 ^ 32) := by
  obtain ⟨_, _, _, hcol⟩ := is_decode_some idata idata' config input outbuf frame r hres
  have hlen := setColor_length idata' _ frame hcol
  rw [decode_memory_length] at hlen
  unfold gst_buffer_get_size
  rw [hlen]
  have h32 : (2 : Nat) ^ 32 = 4294967296 := by norm_num
  rw [h32]
  omega

/-- On a well-formed context whose tflite mode comes with a float32 configuration of 21
labels and a tensor of the contracted length, `is_decode` returns `GST_FLOW_OK`. -/
theorem is_decode_returns (idata : image_segments) (config : GstTensorsConfig)
    (input : List ℚ) (outbuf : List Nat) (hwf : WellFormed idata)
    (hcfg : idata.mode = TFLITE_IMAGE_SEGMENT →
      config.type = tensor_type._NNS_FLOAT32 ∧ config.dimension0 = TOTAL_LABELS ∧
      input.length = idata.height * idata.width * TOTAL_LABELS) :
    ∃ idata' frame, is_decode idata config input outbuf =
      some (idata', frame, GstFlowReturn.GST_FLOW_OK) := by
  rcases hwf with ⟨hw, hh, hnone⟩ | ⟨hw, hh, m, hm, hd, hv⟩
  · by_cases hmode : idata.mode = TFLITE_IMAGE_SEGMENT
    · obtain ⟨htype, hdim, _⟩ := hcfg hmode
      refine ⟨idata, memset_words
        (if gst_buffer_get_size outbuf = 0 then
          gst_allocator_alloc ((idata.width * idata.height * 4) % 2 ^ 32)
        else if gst_buffer_get_size outbuf < (idata.width * idata.height * 4) % 2 ^ 32 then
          gst_buffer_set_size outbuf ((idata.width * idata.height * 4) % 2 ^ 32)
        else outbuf)
        ((idata.width * idata.height * 4) % 2 ^ 32), ?_⟩
      simp only [is_decode, hmode, htype, hdim, if_true, and_self, set_segment_map, hnone, hh,
        setColorAccourdingToLabel, true_or]
    · obtain ⟨frame, hres⟩ := is_decode_unallocated idata config input outbuf hmode hh hnone
      exact ⟨idata, frame, hres⟩
  · have hw' : idata.width = 257 := hw
    have hh' : idata.height = 257 := hh
    by_cases hmode : idata.mode = TFLITE_IMAGE_SEGMENT
    · obtain ⟨htype, hdim, hlen⟩ := hcfg hmode
      have hlen' : input.length = 257 * 257 * 21 := by
        rw [hlen, hh', hw']
        rfl
      obtain ⟨m', frame, hres, _⟩ :=
        is_decode_tflite_spec idata config input outbuf m hmode hw' hh' hm hd htype hdim hlen'
      exact ⟨_, frame, hres⟩
    · have hsize : ((257 * 257 * 4) % 2 ^ 32) / 4 = 257 * 257 := by norm_num
      obtain ⟨frame, hren, _⟩ := render_spec idata
        (memset_words (if gst_buffer_get_size outbuf = 0
            then gst_allocator_alloc ((257 * 257 * 4) % 2 ^ 32)
          else if gst_buffer_get_size outbuf < (257 * 257 * 4) % 2 ^ 32
            then gst_buffer_set_size outbuf ((257 * 257 * 4) % 2 ^ 32)
          else outbuf) ((257 * 257 * 4) % 2 ^ 32))
        m hm (by rw [hh', hw']; exact hv)
        (by
          rw [hh', hw']
          have := memset_words_length (if gst_buffer_get_size outbuf = 0
              then gst_allocator_alloc ((257 * 257 * 4) % 2 ^ 32)
            else if gst_buffer_get_size outbuf < (257 * 257 * 4) % 2 ^ 32
              then gst_buffer_set_size outbuf ((257 * 257 * 4) % 2 ^ 32)
            else outbuf) ((257 * 257 * 4) % 2 ^ 32)
          rw [hsize] at this
          exact this)
      refine ⟨idata, frame, ?_⟩
      simp only [is_decode, hmode, if_false, hw', hh']
      rw [hren]

/-- Claim C19, as amended: for every well-formed context (with a float32 configuration of
21 labels and a tensor of the contracted length in tflite mode) and every incoming output
buffer, `is_decode` returns and the output buffer then has `width * height * 4` bytes or
the incoming size, whichever is larger: exactly `width * height * 4` bytes when the
incoming buffer is empty, smaller or of that size, and the incoming size when it is
larger. -/
theorem is_decode_output_size (idata : image_segments) (config : GstTensorsConfig)
    (input : List ℚ) (outbuf : List Nat) (hwf : WellFormed idata)
    (hcfg : idata.mode = TFLITE_IMAGE_SEGMENT →
      config.type = tensor_type._NNS_FLOAT32 ∧ config.dimension0 = TOTAL_LABELS ∧
      input.length = idata.height * idata.width * TOTAL_LABELS) :
    ∃ idata' frame, is_decode idata config input outbuf =
        some (idata', frame, GstFlowReturn.GST_FLOW_OK) ∧
      gst_buffer_get_size frame =
        max (gst_buffer_get_size outbuf) (idata.width * idata.height * 4) ∧
      (gst_buffer_get_size outbuf ≤ idata.width * idata.height * 4 →
        gst_buffer_get_size frame = idata.width * idata.height * 4) ∧
      (idata.width * idata.height * 4 < gst_buffer_get_size outbuf →
        gst_buffer_get_size frame = gst_buffer_get_size outbuf) := by
  obtain ⟨idata', frame, hres⟩ := is_decode_returns idata config input outbuf hwf hcfg
  have hsize := is_decode_size idata idata' config input outbuf frame _ hres
  have hfit : (idata.width * idata.height * 4) % 2 ^ 32 = idata.width * idata.height * 4 := by
    rcases hwf with ⟨hw, hh, _⟩ | ⟨hw, hh, _⟩
    · rw [hw, hh]
      rfl
    · rw [hw, hh]
      rfl
  rw [hfit] at hsize
  refine ⟨idata', frame, hres, hsize, ?_, ?_⟩
  · intro hle
    rw [hsize]
    exact Nat.max_eq_right hle
  · intro hlt
    rw [hsize]
    exact Nat.max_eq_left (Nat.le_of_lt hlt)

/-- Witness for C19 as amended: the tflite context, the scenario tensor and an empty
incoming buffer give an output buffer of `257 * 257 * 4` bytes. -/
theorem is_decode_output_size_witness :
    WellFormed tflite_context ∧
    ∃ idata' frame, is_decode tflite_context scenario_config scenario_tensor [] =
        some (idata', frame, GstFlowReturn.GST_FLOW_OK) ∧
      gst_buffer_get_size frame = 257 * 257 * 4 := by
  have hwf : WellFormed tflite_context :=
    reachable_wf find_key_strv tflite_context tflite_context_reachable
  have hw : tflite_context.width = 257 := by rw [tflite_context_eq]; rfl
  have hh : tflite_context.height = 257 := by rw [tflite_context_eq]; rfl
  obtain ⟨idata', frame, hres, _, hle, _⟩ :=
    is_decode_output_size tflite_context scenario_config scenario_tensor [] hwf
      (fun _ => ⟨rfl, rfl, by rw [scenario_tensor_length, hh, hw]; rfl⟩)
  refine ⟨hwf, idata', frame, hres, ?_⟩
  have hempty : gst_buffer_get_size [] ≤ tflite_context.width * tflite_context.height * 4 := by
    rw [hw, hh]
    decide
  have := hle hempty
  rw [hw, hh] at this
  exact this

/-- Counterexample to C19 as stated: on the tflite context an incoming buffer of
`257 * 257 + 1` words keeps its `(257 * 257 + 1) * 4` bytes, four more than
`width * height * 4`. -/
theorem is_decode_keeps_larger_buffer :
    ¬ ∀ (idata idata' : image_segments) (config : GstTensorsConfig) (input : List ℚ)
        (outbuf frame : List Nat) (r : GstFlowReturn),
      WellFormed idata → is_decode idata config input outbuf = some (idata', frame, r) →
      gst_buffer_get_size frame = idata.width * idata.height * 4 := by
  intro hclaim
  have hwf : WellFormed tflite_context :=
    reachable_wf find_key_strv tflite_context tflite_context_reachable
  have hw : tflite_context.width = 257 := by rw [tflite_context_eq]; rfl
  have hh : tflite_context.height = 257 := by rw [tflite_context_eq]; rfl
  obtain ⟨idata', frame, hres⟩ :=
    is_decode_returns tflite_context scenario_config scenario_tensor long_outbuf hwf
      (fun _ => ⟨rfl, rfl, by rw [scenario_tensor_length, hh, hw]; rfl⟩)
  have h1 := hclaim tflite_context idata' scenario_config scenario_tensor long_outbuf frame
    _ hwf hres
  have h2 := is_decode_size tflite_context idata' scenario_config scenario_tensor
    long_outbuf frame _ hres
  have hin : gst_buffer_get_size long_outbuf = 4 * (257 * 257 + 1) :=
    gst_buffer_get_size_replicate (257 * 257 + 1) 7
  rw [h1, hin, hw, hh] at h2
  norm_num at h2

/-! ## Rendering twice -/

/-- Running a transformer that only stores colours a second time changes nothing. -/
theorem Overwrites.idem {T : List Nat → Option (List Nat)} (hT : Overwrites T)
    (f f' : List Nat) (h : T f = some f') : T f' = some f' := by
  obtain ⟨W, hW, hindep⟩ := hT
  obtain ⟨hlen, hf'⟩ := hW f f' h
  obtain ⟨g', hg'⟩ := hindep f f' f' h hlen
  obtain ⟨_, hg⟩ := hW f' g' hg'
  have : g' = f' := by
    apply List.ext_getElem?
    intro q
    rw [hg q]
    cases hWq : W q with
    | none => rfl
    | some c =>
      rw [hf' q, hWq]
      simp only
      rw [hlen]
  rw [hg', this]

/-- Returning the frame as it is stores nothing. -/
theorem Overwrites.pure : Overwrites (fun f => some f) :=
  ⟨fun _ => none, fun f f' h => by
    rw [← Option.some.inj h]
    exact ⟨rfl, fun _ => rfl⟩, fun _ g _ _ _ => ⟨g, rfl⟩⟩

/-- A transformer that never returns stores nothing. -/
theorem Overwrites.fail : Overwrites (fun _ => none) :=
  ⟨fun _ => none, fun f f' h => by simp at h, fun f g f' h _ => by simp at h⟩

/-- One bounds-checked store. -/
theorem Overwrites.store (pos c : Nat) :
    Overwrites (fun f => if pos < f.length then some (f.set pos c) else none) := by
  refine ⟨fun q => if q = pos then some c else none, ?_, ?_⟩
  · intro f f' h
    beta_reduce at h ⊢
    by_cases hpos : pos < f.length
    · rw [if_pos hpos] at h
      rw [← Option.some.inj h]
      refine ⟨List.length_set _ _ _, ?_⟩
      intro q
      by_cases hq : q = pos
      · subst hq
        rw [List.getElem?_set_self hpos, if_pos rfl]
        simp only
        rw [if_pos hpos]
      · have hne : pos ≠ q := fun e => hq e.symm
        rw [List.getElem?_set_ne hne, if_neg hq]
    · rw [if_neg hpos] at h
      simp at h
  · intro f g f' h hlen
    beta_reduce at h ⊢
    by_cases hpos : pos < f.length
    · exact ⟨g.set pos c, by rw [if_pos (by rw [hlen]; exact hpos)]⟩
    · rw [if_neg hpos] at h
      simp at h

/-- Two transformers that only store colours, one after the other. -/
theorem Overwrites.seq {T1 T2 : List Nat → Option (List Nat)} (h1 : Overwrites T1)
    (h2 : Overwrites T2) :
    Overwrites (fun f => match T1 f with
      | none => none
      | some f1 => T2 f1) := by
  obtain ⟨W1, hW1, hi1⟩ := h1
  obtain ⟨W2, hW2, hi2⟩ := h2
  refine ⟨fun q => match W2 q with
    | some c => some c
    | none => W1 q, ?_, ?_⟩
  · intro f f' h
    beta_reduce at h ⊢
    cases hf1 : T1 f with
    | none => rw [hf1] at h; simp at h
    | some f1 =>
      rw [hf1] at h
      simp only at h
      obtain ⟨hl1, hq1⟩ := hW1 f f1 hf1
      obtain ⟨hl2, hq2⟩ := hW2 f1 f' h
      refine ⟨by rw [hl2, hl1], ?_⟩
      intro q
      rw [hq2 q]
      cases hWq : W2 q with
      | none =>
        simp only
        rw [hq1 q]
      | some c =>
        simp only
        rw [hl1]
  · intro f g f' h hlen
    beta_reduce at h ⊢
    cases hf1 : T1 f with
    | none => rw [hf1] at h; simp at h
    | some f1 =>
      rw [hf1] at h
      simp only at h
      obtain ⟨g1, hg1⟩ := hi1 f g f1 hf1 hlen
      obtain ⟨hl1, _⟩ := hW1 f f1 hf1
      obtain ⟨hlg, _⟩ := hW1 g g1 hg1
      obtain ⟨g2, hg2⟩ := hi2 f1 g1 f' h (by rw [hlg, hl1, hlen])
      exact ⟨g2, by rw [hg1]; exact hg2⟩

/-- A loop whose iterations only store colours only stores colours. -/
theorem Overwrites.loop {α : Type} (body : List Nat → α → Option (List Nat))
    (hbody : ∀ a, Overwrites (fun f => body f a)) :
    ∀ l : List α, Overwrites (fun f => l.foldlM body f) := by
  intro l
  induction l with
  | nil => exact Overwrites.pure
  | cons a l ih =>
    have hseq := Overwrites.seq (hbody a) ih
    have heq : (fun f => (a :: l).foldlM body f) = (fun f => match body f a with
        | none => none
        | some f1 => l.foldlM body f1) := by
      funext f
      rw [List.foldlM_cons]
      cases body f a <;> rfl
    rw [heq]
    exact hseq

/-- One store of the renderer only stores a colour. -/
theorem color_cell_overwrites (m : List (List Nat)) (w i j : Nat) :
    Overwrites (fun f => color_cell m w i f j) := by
  unfold color_cell
  cases m[i]? with
  | none => exact Overwrites.fail
  | some row =>
    simp only
    cases row[j]? with
    | none => exact Overwrites.fail
    | some l =>
      simp only
      cases labelColor[l]? with
      | none => exact Overwrites.fail
      | some c => exact Overwrites.store (frame_index w i j) c

/-- The renderer only stores colours. -/
theorem setColor_overwrites (idata : image_segments) :
    Overwrites (fun f => setColorAccourdingToLabel idata f) := by
  unfold setColorAccourdingToLabel
  cases idata.segment_map with
  | none =>
    simp only
    by_cases hz : idata.height = 0 ∨ idata.width = 0
    · simp only [if_pos hz]
      exact Overwrites.pure
    · simp only [if_neg hz]
      exact Overwrites.fail
  | some m =>
    simp only
    exact Overwrites.loop (color_row m idata.width)
      (fun i => Overwrites.loop (color_cell m idata.width i)
        (fun j => color_cell_overwrites m idata.width i j) (List.range idata.width))
      (List.range idata.height)

/-- Every position below `height * width` is the flat position of a cell. -/
theorem flat_decompose (h w p : Nat) (hp : p < h * w) :
    ∃ i j, i < h ∧ j < w ∧ p = i * w + j := by
  have hw : 0 < w := by
    rcases Nat.eq_zero_or_pos w with h0 | h0
    · rw [h0, Nat.mul_zero] at hp
      exact absurd hp (Nat.not_lt_zero p)
    · exact h0
  refine ⟨p / w, p % w, ?_, Nat.mod_lt p hw, ?_⟩
  · exact Nat.div_lt_of_lt_mul (by rw [Nat.mul_comm]; exact hp)
  · rw [Nat.mul_comm]
    exact (Nat.div_add_mod p w).symm

/-- Claim C16, as amended: for every context with a label below 21 in each of its cells
and every output buffer of at least `width * height` words, the renderer returns and a
second call on its result, with the label buffer unchanged, returns the very same
buffer; when `width * height` is at most `2 ^ 32`, the first `width * height` rendered
words are the same from whatever buffer of sufficient size the renderer starts. -/
theorem setColor_idempotent (idata : image_segments) (frame : List Nat)
    (m : List (List Nat)) (hm : idata.segment_map = some m)
    (hv : CellsValid m idata.height idata.width)
    (hlen : idata.height * idata.width ≤ frame.length) :
    ∃ f', setColorAccourdingToLabel idata frame = some f' ∧
      setColorAccourdingToLabel idata f' = some f' ∧
      (idata.height * idata.width ≤ 2 ^ 32 →
        ∀ g : List Nat, idata.height * idata.width ≤ g.length →
          ∃ g', setColorAccourdingToLabel idata g = some g' ∧
            ∀ p, p < idata.height * idata.width → g'[p]? = f'[p]?) := by
  obtain ⟨f', hres, _, _, hlow⟩ := render_spec idata frame m hm hv hlen
  refine ⟨f', hres, (setColor_overwrites idata).idem frame f' hres, ?_⟩
  intro hfit g hg
  obtain ⟨g', hresg, _, _, hlowg⟩ := render_spec idata g m hm hv hg
  refine ⟨g', hresg, ?_⟩
  intro p hp
  obtain ⟨i, j, hi, hj, hpij⟩ := flat_decompose idata.height idata.width p hp
  rw [hpij, (hlow hfit).1 i j hi hj, (hlowg hfit).1 i j hi hj]

/-- Witness for C16 as amended on the two-by-two context and a buffer of five words. -/
theorem setColor_idempotent_witness :
    small_context.segment_map = some [[7, 7], [7, 7]] ∧
    CellsValid [[7, 7], [7, 7]] small_context.height small_context.width ∧
    small_context.height * small_context.width ≤ [1, 2, 3, 4, 5].length ∧
    ∃ f', setColorAccourdingToLabel small_context [1, 2, 3, 4, 5] = some f' ∧
      setColorAccourdingToLabel small_context f' = some f' ∧
      (small_context.height * small_context.width ≤ 2 ^ 32 →
        ∀ g : List Nat, small_context.height * small_context.width ≤ g.length →
          ∃ g', setColorAccourdingToLabel small_context g = some g' ∧
            ∀ p, p < small_context.height * small_context.width → g'[p]? = f'[p]?) :=
  have hv : CellsValid [[7, 7], [7, 7]] small_context.height small_context.width :=
    CellsValid_replicate 2 2 7 (by decide)
  ⟨rfl, hv, by decide,
    setColor_idempotent small_context [1, 2, 3, 4, 5] [[7, 7], [7, 7]] rfl hv (by decide)⟩

/-- Counterexample to C16 as stated: with 65537 rows of 65536 cells the word at index
`2 ^ 32`, which lies within the first `width * height` words, is never written, so the
rendered words still depend on the prior contents of the buffer. -/
theorem setColor_keeps_prior_word :
    ¬ ∀ (idata : image_segments) (frame g : List Nat) (m : List (List Nat)),
      idata.segment_map = some m →
      HasDims m idata.height idata.width →
      CellsValid m idata.height idata.width →
      idata.width * idata.height ≤ frame.length →
      idata.width * idata.height ≤ g.length →
      ∃ f' g', setColorAccourdingToLabel idata frame = some f' ∧
        setColorAccourdingToLabel idata f' = some f' ∧
        setColorAccourdingToLabel idata g = some g' ∧
        ∀ p, p < idata.width * idata.height → g'[p]? = f'[p]? := by
  intro hclaim
  have hv : CellsValid (List.replicate 65537 (List.replicate 65536 0))
      wide_context.height wide_context.width :=
    CellsValid_replicate 65537 65536 0 (by decide)
  have hlen : wide_context.height * wide_context.width ≤ wide_frame.length := by
    unfold wide_frame
    rw [List.length_replicate]
    exact Nat.le_refl _
  have hlen1 : wide_context.height * wide_context.width ≤ wide_frame_ones.length := by
    unfold wide_frame_ones
    rw [List.length_replicate]
    exact Nat.le_refl _
  obtain ⟨f', g', hf, _, hg, hsame⟩ := hclaim wide_context wide_frame wide_frame_ones
    (List.replicate 65537 (List.replicate 65536 0)) rfl
    (HasDims_replicate 65537 65536 0) hv
    (by rw [Nat.mul_comm]; exact hlen) (by rw [Nat.mul_comm]; exact hlen1)
  obtain ⟨f'', hf', _, hhigh, _⟩ := render_spec wide_context wide_frame
    (List.replicate 65537 (List.replicate 65536 0)) rfl hv hlen
  obtain ⟨g'', hg', _, hhighg, _⟩ := render_spec wide_context wide_frame_ones
    (List.replicate 65537 (List.replicate 65536 0)) rfl hv hlen1
  rw [hf] at hf'
  rw [hg] at hg'
  have hff : f' = f'' := Option.some.inj hf'
  have hgg : g' = g'' := Option.some.inj hg'
  subst hff
  subst hgg
  have hp : (4294967296 : Nat) < wide_context.width * wide_context.height := by
    show (4294967296 : Nat) < 65536 * 65537
    norm_num
  have h := hsame 4294967296 hp
  rw [hhigh 4294967296 (by norm_num), hhighg 4294967296 (by norm_num)] at h
  have hzero : wide_frame[4294967296]? = some 0 := by
    unfold wide_frame
    rw [List.getElem?_replicate, if_pos (by norm_num)]
  have hone : wide_frame_ones[4294967296]? = some 1 := by
    unfold wide_frame_ones
    rw [List.getElem?_replicate, if_pos (by norm_num)]
  rw [hzero, hone] at h
  exact absurd (Option.some.inj h) (by decide)

/-! ## The palette -/

/-- Distinct labels have distinct colours. -/
theorem labelColor_injective :
    ∀ a, a < TOTAL_LABELS → ∀ b, b < TOTAL_LABELS →
      labelColor[a]? = labelColor[b]? → a = b := by
  decide

/-- Every colour of the palette has top byte `0xFF`. -/
theorem labelColor_opaque : ∀ c, c ∈ labelColor → c / 2 ^ 24 = 0xFF := by
  decide

/-- Without wrap-around, two label buffers of the same dimensions whose renderings agree
on the first `height * width` words are equal. -/
theorem render_injective (idata1 idata2 : image_segments) (frame1 frame2 f1 f2 : List Nat)
    (m1 m2 : List (List Nat))
    (hw : idata1.width = idata2.width) (hh : idata1.height = idata2.height)
    (hm1 : idata1.segment_map = some m1) (hm2 : idata2.segment_map = some m2)
    (hd1 : HasDims m1 idata1.height idata1.width)
    (hd2 : HasDims m2 idata2.height idata2.width)
    (hv1 : CellsValid m1 idata1.height idata1.width)
    (hv2 : CellsValid m2 idata2.height idata2.width)
    (hfit : idata1.height * idata1.width ≤ 2 ^ 32)
    (hlen1 : idata1.height * idata1.width ≤ frame1.length)
    (hlen2 : idata2.height * idata2.width ≤ frame2.length)
    (hr1 : setColorAccourdingToLabel idata1 frame1 = some f1)
    (hr2 : setColorAccourdingToLabel idata2 frame2 = some f2)
    (hsame : ∀ p, p < idata1.height * idata1.width → f1[p]? = f2[p]?) : m1 = m2 := by
  obtain ⟨f1', hr1', _, _, hlow1⟩ := render_spec idata1 frame1 m1 hm1 hv1 hlen1
  obtain ⟨f2', hr2', _, _, hlow2⟩ := render_spec idata2 frame2 m2 hm2 hv2 hlen2
  rw [hr1] at hr1'
  rw [hr2] at hr2'
  have e1 : f1 = f1' := Option.some.inj hr1'
  have e2 : f2 = f2' := Option.some.inj hr2'
  subst e1
  subst e2
  rw [← hh, ← hw] at hd2 hv2 hlow2
  apply HasDims_ext m1 m2 idata1.height idata1.width hd1 hd2
  intro a b ha hb
  have h1 := (hlow1 hfit).1 a b ha hb
  have h2 := (hlow2 hfit).1 a b ha hb
  have hp := hsame (a * idata1.width + b) (flat_lt _ _ a b ha hb)
  rw [h1, h2] at hp
  obtain ⟨l1, hl1, hl1lt⟩ := hv1 a b ha hb
  obtain ⟨l2, hl2, hl2lt⟩ := hv2 a b ha hb
  rw [hl1, hl2]
  unfold pixel_color at hp
  rw [hl1, hl2] at hp
  simp only at hp
  rw [labelColor_injective l1 hl1lt l2 hl2lt hp]

/-- Claim C20, as amended: the 21 colours of `labelColor` are pairwise distinct and each
has top byte `0xFF`; hence two label buffers of the same dimensions, with
`width * height` at most `2 ^ 32` and labels below 21, whose renderings agree on the
`width * height` pixel words are equal. -/
theorem labelColor_distinct_render_injective (idata1 idata2 : image_segments)
    (frame1 frame2 f1 f2 : List Nat) (m1 m2 : List (List Nat))
    (hw : idata1.width = idata2.width) (hh : idata1.height = idata2.height)
    (hm1 : idata1.segment_map = some m1) (hm2 : idata2.segment_map = some m2)
    (hd1 : HasDims m1 idata1.height idata1.width)
    (hd2 : HasDims m2 idata2.height idata2.width)
    (hv1 : CellsValid m1 idata1.height idata1.width)
    (hv2 : CellsValid m2 idata2.height idata2.width)
    (hfit : idata1.height * idata1.width ≤ 2 ^ 32)
    (hlen1 : idata1.height * idata1.width ≤ frame1.length)
    (hlen2 : idata2.height * idata2.width ≤ frame2.length)
    (hr1 : setColorAccourdingToLabel idata1 frame1 = some f1)
    (hr2 : setColorAccourdingToLabel idata2 frame2 = some f2)
    (hsame : ∀ p, p < idata1.height * idata1.width → f1[p]? = f2[p]?) :
    (∀ a b, a < TOTAL_LABELS → b < TOTAL_LABELS → a ≠ b →
      labelColor[a]? ≠ labelColor[b]?) ∧
    (∀ a, a < TOTAL_LABELS → ∃ c, labelColor[a]? = some c ∧ c / 2 ^ 24 = 0xFF) ∧
    m1 = m2 := by
  refine ⟨?_, ?_, render_injective idata1 idata2 frame1 frame2 f1 f2 m1 m2 hw hh hm1 hm2
    hd1 hd2 hv1 hv2 hfit hlen1 hlen2 hr1 hr2 hsame⟩
  · intro a b ha hb hab heq
    exact hab (labelColor_injective a ha b hb heq)
  · intro a ha
    have ha' : a < labelColor.length := ha
    exact ⟨labelColor[a], List.getElem?_eq_getElem ha',
      labelColor_opaque _ (List.getElem_mem ha')⟩

/-- Witness for C20 as amended: the two-by-two context rendered into a buffer of five
words and into a buffer of four words. -/
theorem labelColor_distinct_render_injective_witness :
    setColorAccourdingToLabel small_context [1, 2, 3, 4, 5] =
      some [0xFFF0F8FF, 0xFFF0F8FF, 0xFFF0F8FF, 0xFFF0F8FF, 5] ∧
    setColorAccourdingToLabel small_context [9, 9, 9, 9] =
      some [0xFFF0F8FF, 0xFFF0F8FF, 0xFFF0F8FF, 0xFFF0F8FF] ∧
    (∀ a b, a < TOTAL_LABELS → b < TOTAL_LABELS → a ≠ b →
      labelColor[a]? ≠ labelColor[b]?) ∧
    (∀ a, a < TOTAL_LABELS → ∃ c, labelColor[a]? = some c ∧ c / 2 ^ 24 = 0xFF) ∧
    ([[7, 7], [7, 7]] : List (List Nat)) = [[7, 7], [7, 7]] :=
  have hd : HasDims [[7, 7], [7, 7]] small_context.height small_context.width := by
    simp [HasDims, small_context]
  have hv : CellsValid [[7, 7], [7, 7]] small_context.height small_context.width :=
    CellsValid_replicate 2 2 7 (by decide)
  have hr1 : setColorAccourdingToLabel small_context [1, 2, 3, 4, 5] =
      some [0xFFF0F8FF, 0xFFF0F8FF, 0xFFF0F8FF, 0xFFF0F8FF, 5] := by decide
  have hr2 : setColorAccourdingToLabel small_context [9, 9, 9, 9] =
      some [0xFFF0F8FF, 0xFFF0F8FF, 0xFFF0F8FF, 0xFFF0F8FF] := by decide
  ⟨hr1, hr2,
    labelColor_distinct_render_injective small_context small_context [1, 2, 3, 4, 5]
      [9, 9, 9, 9] _ _ [[7, 7], [7, 7]] [[7, 7], [7, 7]] rfl rfl rfl rfl hd hd hv hv
      (by decide) (by decide) (by decide) hr1 hr2 (by decide)⟩

/-! ## What wrap-around hides -/

/-- Relational loop rule: a relation between the states of two runs of a counting loop
that holds on entry and is carried by every pair of successful iterations holds between
the results. -/
theorem foldlM_range'_rel {σ : Type} (fa fb : σ → Nat → Option σ)
    (Rel : Nat → σ → σ → Prop) (n : Nat) : ∀ (s : Nat) (a0 b0 a' b' : σ), Rel s a0 b0 →
    (∀ k a b a1 b1, s ≤ k → k < s + n → Rel k a b → fa a k = some a1 → fb b k = some b1 →
      Rel (k + 1) a1 b1) →
    (List.range' s n).foldlM fa a0 = some a' → (List.range' s n).foldlM fb b0 = some b' →
    Rel (s + n) a' b' := by
  induction n with
  | zero =>
    intro s a0 b0 a' b' h0 _ ha hb
    simp at ha hb
    rw [← ha, ← hb]
    exact h0
  | succ n ih =>
    intro s a0 b0 a' b' h0 hstep ha hb
    rw [List.range'_succ, List.foldlM_cons] at ha hb
    cases hfa : fa a0 s with
    | none => rw [hfa] at ha; simp at ha
    | some a1 =>
      cases hfb : fb b0 s with
      | none => rw [hfb] at hb; simp at hb
      | some b1 =>
        rw [hfa] at ha
        rw [hfb] at hb
        have h1 := hstep s a0 b0 a1 b1 (Nat.le_refl s) (by omega) h0 hfa hfb
        have := ih (s + 1) a1 b1 a' b' h1
          (fun k a b a2 b2 hk1 hk2 => hstep k a b a2 b2 (by omega) (by omega)) ha hb
        have heq : s + (n + 1) = s + 1 + n := by omega
        rw [heq]
        exact this

/-- The relational loop rule for loops that count from zero. -/
theorem foldlM_range_rel {σ : Type} (fa fb : σ → Nat → Option σ)
    (Rel : Nat → σ → σ → Prop) (n : Nat) (a0 b0 a' b' : σ) (h0 : Rel 0 a0 b0)
    (hstep : ∀ k a b a1 b1, k < n → Rel k a b → fa a k = some a1 → fb b k = some b1 →
      Rel (k + 1) a1 b1)
    (ha : (List.range n).foldlM fa a0 = some a')
    (hb : (List.range n).foldlM fb b0 = some b') : Rel n a' b' := by
  rw [List.range_eq_range'] at ha hb
  have := foldlM_range'_rel fa fb Rel n 0 a0 b0 a' b' h0
    (fun k a b a1 b1 _ hk => hstep k a b a1 b1 (by omega)) ha hb
  simpa using this

/-- A successful store of the renderer is the store of the palette colour of the cell at
the 32-bit position, inside the frame. -/
theorem color_cell_some (m : List (List Nat)) (w i j : Nat) (frame f' : List Nat)
    (h : color_cell m w i frame j = some f') :
    ∃ c, pixel_color m i j = some c ∧ frame_index w i j < frame.length ∧
      f' = frame.set (frame_index w i j) c := by
  unfold color_cell at h
  unfold pixel_color cell
  cases hrow : m[i]? with
  | none => rw [hrow] at h; simp at h
  | some row =>
    rw [hrow] at h
    simp only at h ⊢
    cases hl : row[j]? with
    | none => rw [hl] at h; simp at h
    | some l =>
      rw [hl] at h
      simp only at h ⊢
      cases hc : labelColor[l]? with
      | none => rw [hc] at h; simp at h
      | some c =>
        rw [hc] at h
        simp only at h
        by_cases hpos : frame_index w i j < frame.length
        · rw [if_pos hpos] at h
          exact ⟨c, rfl, hpos, (Option.some.inj h).symm⟩
        · rw [if_neg hpos] at h
          simp at h

/-- Two stores of the same colour for the same cell keep two frames equal wherever they
were equal, and make them equal at the position written. -/
theorem color_cell_rel (ma mb : List (List Nat)) (w i j : Nat) (a b a1 b1 : List Nat)
    (hcol : pixel_color ma i j = pixel_color mb i j)
    (ha : color_cell ma w i a j = some a1) (hb : color_cell mb w i b j = some b1) :
    (∀ p : Nat, a[p]? = b[p]? → a1[p]? = b1[p]?) ∧
    a1[frame_index w i j]? = b1[frame_index w i j]? := by
  obtain ⟨ca, hca, hpa, ea⟩ := color_cell_some ma w i j a a1 ha
  obtain ⟨cb, hcb, hpb, eb⟩ := color_cell_some mb w i j b b1 hb
  rw [hca, hcb] at hcol
  have hcc : ca = cb := Option.some.inj hcol
  subst hcc
  rw [ea, eb]
  constructor
  · intro p hp
    by_cases hpp : frame_index w i j = p
    · subst hpp
      rw [List.getElem?_set_self hpa, List.getElem?_set_self hpb]
    · rw [List.getElem?_set_ne hpp, List.getElem?_set_ne hpp]
      exact hp
  · rw [List.getElem?_set_self hpa, List.getElem?_set_self hpb]

/-- Two stores at position 0 keep two frames equal wherever they were equal off
position 0. -/
theorem color_cell_off (ma mb : List (List Nat)) (w i j : Nat) (a b a1 b1 : List Nat)
    (hpos : frame_index w i j = 0)
    (ha : color_cell ma w i a j = some a1) (hb : color_cell mb w i b j = some b1)
    (hoff : ∀ p : Nat, p ≠ 0 → a[p]? = b[p]?) : ∀ p : Nat, p ≠ 0 → a1[p]? = b1[p]? := by
  obtain ⟨ca, _, _, ea⟩ := color_cell_some ma w i j a a1 ha
  obtain ⟨cb, _, _, eb⟩ := color_cell_some mb w i j b b1 hb
  intro p hp
  have hne : frame_index w i j ≠ p := by
    rw [hpos]
    exact fun e => hp e.symm
  rw [ea, eb, List.getElem?_set_ne hne, List.getElem?_set_ne hne]
  exact hoff p hp

/-- The marked buffer has the cells of the all-zero buffer except for cell `(0, 0)`. -/
theorem cell_marked_off (h w a b : Nat) (hh : 0 < h) (hab : ¬ (a = 0 ∧ b = 0)) :
    cell (marked_map h w) a b = cell (List.replicate h (List.replicate w 0)) a b := by
  unfold marked_map
  rw [cell_set _ 0 _ (by rw [List.length_replicate]; exact hh)]
  by_cases ha : a = 0
  · have hb : 0 ≠ b := fun e => hab ⟨ha, e.symm⟩
    rw [if_pos ha, List.getElem?_set_ne hb, ha]
    unfold cell
    rw [List.getElem?_replicate_of_lt hh]
  · rw [if_neg ha]

/-- The marked buffer differs from the all-zero buffer in cell `(0, 0)` only. -/
theorem pixel_color_marked (h w a b : Nat) (hh : 0 < h) (hab : ¬ (a = 0 ∧ b = 0)) :
    pixel_color (marked_map h w) a b =
      pixel_color (List.replicate h (List.replicate w 0)) a b := by
  unfold pixel_color
  rw [cell_marked_off h w a b hh hab]

/-- Cell `(0, 0)` of the marked buffer holds label 1. -/
theorem cell_marked_origin (h w : Nat) (hh : 0 < h) (hw : 0 < w) :
    cell (marked_map h w) 0 0 = some 1 := by
  unfold marked_map
  rw [cell_set _ 0 _ (by rw [List.length_replicate]; exact hh), if_pos rfl,
    List.getElem?_set_self (by rw [List.length_replicate]; exact hw)]

/-- The marked buffer has the dimensions it was built with and valid labels. -/
theorem marked_map_valid (h w : Nat) (hh : 0 < h) (hw : 0 < w) :
    HasDims (marked_map h w) h w ∧ CellsValid (marked_map h w) h w := by
  have hd : HasDims (marked_map h w) h w := by
    unfold marked_map
    exact (HasDims_replicate h w 0).set (by rw [List.length_set, List.length_replicate])
  refine ⟨hd, ?_⟩
  intro a b ha hb
  by_cases hab : a = 0 ∧ b = 0
  · rw [hab.1, hab.2, cell_marked_origin h w hh hw]
    exact ⟨1, rfl, by decide⟩
  · rw [cell_marked_off h w a b hh hab, cell_replicate h w 0 a b ha hb]
    exact ⟨0, rfl, by decide⟩

/-- When a later row `i0` wraps onto position 0, rendering the all-zero buffer and
rendering the marked buffer into the same frame give the same result: the colour of cell
`(0, 0)` is overwritten by the colour of cell `(i0, 0)`. -/
theorem wrap_hides_origin (h w i0 : Nat) (hw : 0 < w) (hi0 : 0 < i0) (hi0h : i0 < h)
    (hwrap : frame_index w i0 0 = 0) (frame fa fb : List Nat)
    (ha : (List.range h).foldlM (color_row (List.replicate h (List.replicate w 0)) w) frame
      = some fa)
    (hb : (List.range h).foldlM (color_row (marked_map h w) w) frame = some fb) :
    fa = fb := by
  have hh : 0 < h := lt_trans hi0 hi0h
  have hrel := foldlM_range_rel
    (color_row (List.replicate h (List.replicate w 0)) w) (color_row (marked_map h w) w)
    (fun n a b => (∀ p : Nat, p ≠ 0 → a[p]? = b[p]?) ∧ (i0 < n → ∀ p : Nat, a[p]? = b[p]?))
    h frame frame fa fb ⟨fun _ _ => rfl, fun _ _ => rfl⟩
    (by
      intro k a b a1 b1 _ hk hrowa hrowb
      have hrow := foldlM_range_rel
        (color_cell (List.replicate h (List.replicate w 0)) w k)
        (color_cell (marked_map h w) w k)
        (fun j a b => (∀ p : Nat, p ≠ 0 → a[p]? = b[p]?) ∧
          ((i0 < k ∨ (k = i0 ∧ 0 < j)) → ∀ p : Nat, a[p]? = b[p]?))
        w a b a1 b1
        ⟨hk.1, fun hcase => by
          rcases hcase with h1 | ⟨_, h2⟩
          · exact hk.2 h1
          · exact absurd h2 (Nat.lt_irrefl 0)⟩
        (by
          intro j x y x1 y1 _ hj hx hy
          by_cases hkj : k = 0 ∧ j = 0
          · obtain ⟨hk0, hj0⟩ := hkj
            subst hk0
            subst hj0
            have hpos : frame_index w 0 0 = 0 := by
              unfold frame_index
              norm_num
            refine ⟨color_cell_off _ _ w 0 0 x y x1 y1 hpos hx hy hj.1, ?_⟩
            intro hcase
            rcases hcase with h1 | ⟨h1, _⟩
            · exact absurd h1 (Nat.not_lt_zero i0)
            · rw [← h1] at hi0
              exact absurd hi0 (Nat.lt_irrefl 0)
          · have hcol := (pixel_color_marked h w k j hh hkj).symm
            obtain ⟨hkeep, hat⟩ := color_cell_rel _ _ w k j x y x1 y1 hcol hx hy
            refine ⟨fun p hp => hkeep p (hj.1 p hp), ?_⟩
            intro hcase p
            by_cases hbefore : i0 < k ∨ (k = i0 ∧ 0 < j)
            · exact hkeep p (hj.2 hbefore p)
            · have hki : k = i0 ∧ j = 0 := by
                rcases hcase with h1 | ⟨h1, _⟩
                · exact absurd (Or.inl h1) hbefore
                · refine ⟨h1, ?_⟩
                  rcases Nat.eq_zero_or_pos j with hz | hz
                  · exact hz
                  · exact absurd (Or.inr ⟨h1, hz⟩) hbefore
              by_cases hp : p = 0
              · rw [hki.1, hki.2, hwrap] at hat
                rw [hp]
                exact hat
              · exact hkeep p (hj.1 p hp))
        hrowa hrowb
      refine ⟨hrow.1, ?_⟩
      intro hlt
      apply hrow.2
      rcases Nat.lt_succ_iff_lt_or_eq.mp hlt with h1 | h1
      · exact Or.inl h1
      · exact Or.inr ⟨h1.symm, hw⟩)
    ha hb
  exact List.ext_getElem? (hrel.2 hi0h)

/-- Counterexample to C20 as stated: with 65537 rows of 65536 cells, row 65536 is written
over the words of row 0, so the all-zero buffer and the buffer with label 1 in cell
`(0, 0)` render to the same pixel buffer although they differ. -/
theorem render_not_injective_when_wrapping :
    ¬ ∀ (idata1 idata2 : image_segments) (frame f1 f2 : List Nat)
        (m1 m2 : List (List Nat)),
      idata1.width = idata2.width → idata1.height = idata2.height →
      idata1.segment_map = some m1 → idata2.segment_map = some m2 →
      HasDims m1 idata1.height idata1.width → HasDims m2 idata2.height idata2.width →
      CellsValid m1 idata1.height idata1.width →
      CellsValid m2 idata2.height idata2.width →
      idata1.width * idata1.height ≤ frame.length →
      setColorAccourdingToLabel idata1 frame = some f1 →
      setColorAccourdingToLabel idata2 frame = some f2 →
      f1 = f2 → m1 = m2 := by
  intro hclaim
  have hv : CellsValid (List.replicate 65537 (List.replicate 65536 0))
      wide_context.height wide_context.width :=
    CellsValid_replicate 65537 65536 0 (by decide)
  have hmarked := marked_map_valid 65537 65536 (by norm_num) (by norm_num)
  have hlen : wide_context.height * wide_context.width ≤ wide_frame.length := by
    unfold wide_frame
    rw [List.length_replicate]
    exact Nat.le_refl _
  obtain ⟨f1, hr1, _⟩ := render_spec wide_context wide_frame
    (List.replicate 65537 (List.replicate 65536 0)) rfl hv hlen
  obtain ⟨f2, hr2, _⟩ := render_spec wide_context_marked wide_frame
    (marked_map 65537 65536) rfl hmarked.2 hlen
  have hwrap : frame_index 65536 65536 0 = 0 := by
    unfold frame_index
    norm_num
  have hsame : f1 = f2 :=
    wrap_hides_origin 65537 65536 65536 (by norm_num) (by norm_num) (by norm_num) hwrap
      wide_frame f1 f2 hr1 hr2
  have hmaps := hclaim wide_context wide_context_marked wide_frame f1 f2
    (List.replicate 65537 (List.replicate 65536 0)) (marked_map 65537 65536)
    rfl rfl rfl rfl (HasDims_replicate 65537 65536 0) hmarked.1 hv hmarked.2
    (by rw [Nat.mul_comm]; exact hlen) hr1 hr2 hsame
  have h0 := cell_replicate 65537 65536 0 0 0 (by norm_num) (by norm_num)
  have h1 := cell_marked_origin 65537 65536 (by norm_num) (by norm_num)
  rw [hmaps, h1] at h0
  exact absurd (Option.some.inj h0) (by decide)

/-! ## The classifier beyond 32-bit indices -/

/-- Reading a tensor that is given by a function on its indices. -/
theorem getD_map_range (N : Nat) (f : Nat → ℚ) (n : Nat) (hn : n < N) :
    ((List.range N).map f).getD n 0 = f n := by
  rw [List.getD_eq_getElem?_getD, List.getElem?_map, List.getElem?_range hn]
  rfl

/-- Counterexample to C2 as stated: with 3122 rows of 65536 cells the scores of pixel
`(3121, 0)` start at row-major index `4295294976`, the 32-bit index wraps to `327680`,
and the classifier reads zeros there: the cell is left at 0 although label 5 of that
pixel has score 0.9. -/
theorem set_segment_map_index_wraps :
    ¬ ∀ (idata : image_segments) (prob_map : List ℚ) (m : List (List Nat)) (i j : Nat),
      idata.segment_map = some m →
      HasDims m idata.height idata.width →
      prob_map.length = idata.height * idata.width * TOTAL_LABELS →
      i < idata.height → j < idata.width →
      ∃ m' k p, set_segment_map idata prob_map =
          some { idata with segment_map := some m' } ∧
        LowestMax (fun idx => prob_map.getD ((i * idata.width + j) * TOTAL_LABELS + idx) 0)
          k p ∧
        (p > DETECTION_THRESHOLD → cell m' i j = some k) ∧
        (p ≤ DETECTION_THRESHOLD → cell m' i j = some 0) := by
  intro hclaim
  have hd : HasDims (List.replicate 3122 (List.replicate 65536 0))
      deep_context.height deep_context.width := HasDims_replicate 3122 65536 0
  have hlen : deep_tensor.length =
      deep_context.height * deep_context.width * TOTAL_LABELS := by
    unfold deep_tensor
    rw [List.length_map, List.length_range]
    rfl
  have hi : (3121 : Nat) < deep_context.height := by
    show (3121 : Nat) < 3122
    norm_num
  have hj : (0 : Nat) < deep_context.width := by
    show (0 : Nat) < 65536
    norm_num
  have hpos : (0 : ℚ) < score_0_9 := by norm_num [score_0_9]
  have hthr : score_0_9 > DETECTION_THRESHOLD := by
    norm_num [score_0_9, DETECTION_THRESHOLD]
  -- what the claim promises for pixel (3121, 0)
  obtain ⟨m', k, p, hres, hlm, hgt, _⟩ := hclaim deep_context deep_tensor
    (List.replicate 3122 (List.replicate 65536 0)) 3121 0 rfl hd hlen hi hj
  have hrow : ∀ idx, idx < TOTAL_LABELS →
      deep_tensor.getD ((3121 * 65536 + 0) * 21 + idx) 0 =
        if idx = 5 then score_0_9 else 0 := by
    intro idx hidx
    have h21 : idx < 21 := hidx
    unfold deep_tensor
    rw [getD_map_range _ _ _ (by omega)]
    have : ((3121 * 65536 + 0) * 21 + idx = 4295294981) ↔ idx = 5 := by omega
    simp only [this]
  have hbest : LowestMax (fun idx => deep_tensor.getD ((3121 * 65536 + 0) * 21 + idx) 0)
      5 score_0_9 := by
    refine ⟨by decide, ?_, ?_, ?_⟩
    · show deep_tensor.getD ((3121 * 65536 + 0) * 21 + 5) 0 = score_0_9
      rw [hrow 5 (by decide), if_pos rfl]
    · intro idx hidx
      show deep_tensor.getD ((3121 * 65536 + 0) * 21 + idx) 0 ≤ score_0_9
      rw [hrow idx hidx]
      by_cases h5 : idx = 5
      · rw [if_pos h5]
      · rw [if_neg h5]; exact le_of_lt hpos
    · intro idx hidx
      show deep_tensor.getD ((3121 * 65536 + 0) * 21 + idx) 0 < score_0_9
      have h5 : idx ≠ 5 := by omega
      rw [hrow idx (lt_trans hidx (by decide)), if_neg h5]
      exact hpos
  obtain ⟨hk, hp⟩ := LowestMax_unique _ k 5 p score_0_9 hlm hbest
  have hclaimed : cell m' 3121 0 = some 5 := by
    rw [← hk]
    exact hgt (by rw [hp]; exact hthr)
  -- what the code does for pixel (3121, 0)
  obtain ⟨m2, hres2, _, hcells⟩ := set_segment_map_spec deep_context deep_tensor
    (List.replicate 3122 (List.replicate 65536 0)) rfl hd hlen
  rw [hres] at hres2
  have hmaps : some m' = some m2 :=
    congrArg image_segments.segment_map (Option.some.inj hres2)
  have hmm : m' = m2 := Option.some.inj hmaps
  subst hmm
  obtain ⟨k2, p2, _, hlm2, hlabel⟩ :=
    pixel_scan_spec deep_tensor deep_context.height deep_context.width 3121 0 hlen hi hj
  have hread : ∀ idx, idx < TOTAL_LABELS →
      deep_tensor.getD (prob_index 65536 3121 0 idx) 0 = 0 := by
    intro idx hidx
    have h21 : idx < 21 := hidx
    have hwrapped : prob_index 65536 3121 0 idx = 327680 + idx := by
      unfold prob_index TOTAL_LABELS
      omega
    rw [hwrapped]
    unfold deep_tensor
    rw [getD_map_range _ _ _ (by omega)]
    have : ¬ (327680 + idx = 4295294981) := by omega
    rw [if_neg this]
  have hzero : LowestMax (fun idx => deep_tensor.getD (prob_index 65536 3121 0 idx) 0)
      0 0 := by
    refine ⟨by decide, hread 0 (by decide), ?_, ?_⟩
    · intro idx hidx
      show deep_tensor.getD (prob_index 65536 3121 0 idx) 0 ≤ 0
      rw [hread idx hidx]
    · intro idx hidx
      exact absurd hidx (Nat.not_lt_zero idx)
  obtain ⟨hk2, hp2⟩ := LowestMax_unique _ k2 0 p2 0 hlm2 hzero
  have hnot : ¬ ((0 : ℚ) > DETECTION_THRESHOLD) := by norm_num [DETECTION_THRESHOLD]
  rw [hk2, hp2, if_neg hnot] at hlabel
  have hactual := hcells 3121 0 hi hj
  rw [hlabel, hclaimed] at hactual
  exact absurd (Option.some.inj hactual) (by decide)

end ImageSegment
